import Mathlib

/-!
# Verification of the dca-bot repository

Shallow embedding of the two source files, `bybit_bot.py` and
`binance_dca.py`, of the ZulZeddi/dca-bot repository.

Modelling conventions:
* Python floats are modelled as rationals (ℚ); `round(x, 6)` is modelled by
  `round6` below (round-half decimal rounding at six places).
* Every exchange / network call is resolved by an explicit oracle value
  supplied as an argument: `Except Unit α` outcomes model a Python call that
  can raise (`.error ()`) or return a value.
* Each modelled function returns the list of externally observable events it
  produces (exchange calls, log lines, Telegram sends, CSV appends, sleeps)
  together with its result; a result of type `Except Unit α` models a Python
  function from which an exception may escape.
* Every `except` block of the sources is represented by a `CatchSite`
  constructor; `catchEvents` gives the events that handler emits, and the
  model functions emit exactly those events at the corresponding points.
-/

/-- Python `round(x, 6)` on our rational model: rounding at six decimal
places (Python uses round-half-even on binary floats; ties are the only
divergence and no theorem below depends on tie behaviour). -/
def round6 (q : ℚ) : ℚ := (round (q * 1000000) : ℤ) / 1000000

/-- `BUFFER_MULTIPLIER = 1.015` (bybit_bot.py line 40). -/
def BUFFER_MULTIPLIER : ℚ := 1015 / 1000

/-- `MIN_REDEMPTION_USD = 10.0` (bybit_bot.py line 41). -/
def MIN_REDEMPTION_USD : ℚ := 10

/-- `DAILY_USDC = 13` (binance_dca.py line 24). -/
def DAILY_USDC : ℚ := 13

/-- `ETH_RATIO = 0.6` (binance_dca.py line 25). -/
def ethShare : ℚ := 6 / 10

/-- `SOL_RATIO = 0.4` (binance_dca.py line 26). -/
def solShare : ℚ := 4 / 10

/-- `MIN_REQUIRED_BALANCE = DAILY_USDC` (binance_dca.py line 28). -/
def MIN_REQUIRED_BALANCE : ℚ := DAILY_USDC

/-- Order type of a Bybit Earn submission (`orderType` argument). -/
inductive OrderTy
  | redeem
  | stake
deriving DecidableEq, Repr

/-- Tags identifying the individual log / Telegram messages of the sources.
A tag stands for the (dynamic) message text of one call site. -/
inductive MsgTag
  | botRunning | allocSumWarn | allocParseError | noAlloc
  | balanceError | availableBalance
  | deficitPrimary | redeemableInfo | attemptRedeemPrimary | redeemingPrimaryTg
  | deficitStep3 | attemptRedeemSecondary | redeemingSecondaryTg
  | convertAllInfo | convertGained | deficitCovered | deficitRemains | convertFailed
  | insufficientFunds | notEnoughForSymbol | buyingSymbol
  | convertTooSmall | convertProcessed | convertError
  | productNotFound | stakeRedeemSuccess | stakeRedeemFail | stakeRedeemError
  | primaryFetchError | secondaryFetchError | telegramError
  | tryStakeInfo | ethManualAction
  | binStart | binUnstaked | binUnstakeFailed | binBalanceError
  | binSkipTrade | binBought | binBuyError
  | binSubscribed | binSubscribeFailed | binSubscribeError
  | binCompleted | binPnlReport | binPnlError
deriving DecidableEq, Repr, Fintype

/-- Externally observable events of one run. -/
inductive Event
  | queryBalance (coin : String)
  | queryStaked (coin : String)
  | redeemableSeen (coin : String) (r : ℚ)
  | queryEarnProduct (coin : String)
  | earnSubmit (ot : OrderTy) (coin : String) (amount : ℚ)
  | quoteRequest (fromCoin toCoin : String) (amount : ℚ)
  | quoteConfirm
  | convertDone (fromCoin toCoin : String) (fromAmount toAmount : ℚ)
  | tradeLog (symbol : String) (qty price total : ℚ)
  | telegram (t : MsgTag)
  | logMsg (t : MsgTag)
  | sleep (secs : ℚ)
  | buyOrder (symbol : String) (quoteAmount : ℚ)
  | binRedeem (amount : ℚ)
  | binSubscribeCall (asset : String) (amount : ℚ)
deriving DecidableEq, Repr

/-- The `except` blocks of the two source files. -/
inductive CatchSite
  | telegramPost        -- bybit_bot.py line 60 (and binance_dca.py line 39)
  | getBalance          -- bybit_bot.py line 71
  | convertCall         -- bybit_bot.py line 106
  | stakeRedeemCall     -- bybit_bot.py line 154
  | allocParse          -- bybit_bot.py line 176
  | primaryStakedFetch  -- bybit_bot.py line 221
  | secondaryStakedFetch -- bybit_bot.py line 262
  | binRedeemClientError -- binance_dca.py line 50 (handler body is a bare string)
  | binBalance          -- binance_dca.py line 68
  | binBuy              -- binance_dca.py line 98
  | binSubscribe        -- binance_dca.py line 143
  | binPnl              -- binance_dca.py line 185
deriving DecidableEq, Repr, Fintype

/-- The events each `except` handler of the sources emits.  This table is
translated handler-by-handler from the source; the model functions below
emit exactly `catchEvents s` at the corresponding catch point. -/
def catchEvents : CatchSite → List Event
  | .telegramPost => [.logMsg .telegramError]
  | .getBalance => [.logMsg .balanceError, .telegram .balanceError]
  | .convertCall => [.logMsg .convertError, .telegram .convertError]
  | .stakeRedeemCall => [.logMsg .stakeRedeemError, .telegram .stakeRedeemError]
  | .allocParse => [.logMsg .allocParseError, .telegram .allocParseError]
  | .primaryStakedFetch => [.logMsg .primaryFetchError]
  | .secondaryStakedFetch => [.logMsg .secondaryFetchError]
  | .binRedeemClientError => []
  | .binBalance => [.logMsg .binBalanceError, .telegram .binBalanceError]
  | .binBuy => [.logMsg .binBuyError, .telegram .binBuyError]
  | .binSubscribe => [.logMsg .binSubscribeError, .telegram .binSubscribeError]
  | .binPnl => [.logMsg .binPnlError, .telegram .binPnlError]

/-- `send_telegram` (bybit_bot.py lines 48-61): posts the message; a failure
of the post is caught internally and only logged.  `postFails` is the
oracle for the `requests.post` call. -/
def send_telegram (t : MsgTag) (postFails : Bool) : List Event :=
  .telegram t :: (if postFails then catchEvents .telegramPost else [])

instance exceptDecEq {ε α : Type _} [DecidableEq ε] [DecidableEq α] :
    DecidableEq (Except ε α) := fun a b =>
  match a, b with
  | .error e, .error f =>
      if h : e = f then isTrue (by rw [h]) else
        isFalse (fun hc => h (by injection hc))
  | .error _, .ok _ => isFalse (fun hc => Except.noConfusion hc)
  | .ok _, .error _ => isFalse (fun hc => Except.noConfusion hc)
  | .ok x, .ok y =>
      if h : x = y then isTrue (by rw [h]) else
        isFalse (fun hc => h (by injection hc))

/-- Oracle for one `get_wallet_balance` call: `.error ()` models a raised
exception, `.ok none` an empty result list, `.ok (some v)` the wallet
balance `v`. -/
structure BalanceOracle where
  resp : Except Unit (Option ℚ)
deriving DecidableEq

/-- The balance value `get_coin_balance` yields for a given oracle
(0 on exception or empty list, otherwise the value rounded to 6 places). -/
def balanceValue (b : BalanceOracle) : ℚ :=
  match b.resp with
  | .ok (some v) => round6 v
  | _ => 0

/-- `get_coin_balance` (bybit_bot.py lines 63-74). -/
def get_coin_balance (coin : String) (b : BalanceOracle) : List Event × ℚ :=
  match b.resp with
  | .error _ => (.queryBalance coin :: catchEvents .getBalance, 0)
  | .ok none => ([.queryBalance coin], 0)
  | .ok (some v) => ([.queryBalance coin], round6 v)

theorem get_coin_balance_val (coin : String) (b : BalanceOracle) :
    (get_coin_balance coin b).2 = balanceValue b := by
  cases b with
  | mk r => cases r with
    | error e => rfl
    | ok v => cases v <;> rfl

/-- A quote as returned by the Bybit Convert API (string amounts of the
response are modelled as rationals, as the callers apply `float`). -/
structure Quote where
  fromCoin : String
  toCoin : String
  fromAmount : ℚ
  toAmount : ℚ
deriving DecidableEq

/-- Oracle for one `convert_coins` invocation: outcome of
`request_a_quote`, and whether `confirm_a_quote` raises. -/
structure ConvertOracle where
  quote : Except Unit Quote
  confirmFails : Bool
deriving DecidableEq

/-- The 4-tuple `(fromCoin, toCoin, fromAmount, toAmount)` returned by
`convert_coins`. -/
structure ConvResult where
  fromCoin : String
  toCoin : String
  fromAmount : ℚ
  toAmount : ℚ
deriving DecidableEq

/-- The sentinel `(fromCoin, toCoin, "0.0", "0.0")` result. -/
def sentinel (f t : String) : ConvResult := ⟨f, t, 0, 0⟩

/-- `convert_coins` (bybit_bot.py lines 76-110).  The whole body is inside
`try`, so the function never raises; failures yield the sentinel. -/
def convert_coins (fromCoin toCoin : String) (usd_amount : ℚ)
    (o : ConvertOracle) : List Event × ConvResult :=
  if usd_amount < 1 / 100 then
    ([.logMsg .convertTooSmall], sentinel fromCoin toCoin)
  else
    match o.quote with
    | .error _ =>
        (.quoteRequest fromCoin toCoin usd_amount :: catchEvents .convertCall,
         sentinel fromCoin toCoin)
    | .ok q =>
        if o.confirmFails then
          ([.quoteRequest fromCoin toCoin usd_amount, .quoteConfirm]
             ++ catchEvents .convertCall,
           sentinel fromCoin toCoin)
        else
          ([.quoteRequest fromCoin toCoin usd_amount, .quoteConfirm,
            .convertDone q.fromCoin q.toCoin q.fromAmount q.toAmount,
            .logMsg .convertProcessed, .telegram .convertProcessed],
           ⟨q.fromCoin, q.toCoin, q.fromAmount, q.toAmount⟩)

/-- Oracle for one `stake_or_redeem` invocation: outcome of
`get_earn_product_info` (`.ok none` = empty product list, `.ok (some ())` =
a product id was found) and of the `stake_or_redeem` API call (the
returned `retCode`, or a raised exception). -/
structure StakeOracle where
  productInfo : Except Unit (Option Unit)
  submit : Except Unit Int
deriving DecidableEq

/-- `stake_or_redeem` (bybit_bot.py lines 125-157).  Note that the
`get_earn_product_info` call (line 131) is OUTSIDE the `try` block
(line 139), so an exception raised by it escapes the function: the result
type is `Except Unit Bool`. -/
def stake_or_redeem (ot : OrderTy) (amount : ℚ) (coin : String)
    (o : StakeOracle) : List Event × Except Unit Bool :=
  let ra := round6 amount
  match o.productInfo with
  | .error e => ([.queryEarnProduct coin], .error e)
  | .ok none =>
      ([.queryEarnProduct coin, .logMsg .productNotFound,
        .telegram .productNotFound], .ok false)
  | .ok (some _) =>
      match o.submit with
      | .error _ =>
          (.queryEarnProduct coin :: .earnSubmit ot coin ra
             :: catchEvents .stakeRedeemCall, .ok false)
      | .ok rc =>
          if rc = 0 then
            ([.queryEarnProduct coin, .earnSubmit ot coin ra,
              .logMsg .stakeRedeemSuccess, .telegram .stakeRedeemSuccess],
             .ok true)
          else
            ([.queryEarnProduct coin, .earnSubmit ot coin ra,
              .logMsg .stakeRedeemFail, .telegram .stakeRedeemFail],
             .ok false)

/-! ## Python string helpers (over `List Char`) -/

/-- Python `str.split(sep)` for a single-character separator: splits at
every occurrence, keeping empty pieces (`"".split(',') == ['']`). -/
def pySplit (sep : Char) : List Char → List (List Char)
  | [] => [[]]
  | c :: rest =>
      let r := pySplit sep rest
      if c = sep then [] :: r
      else
        match r with
        | [] => [[c]]
        | piece :: more => (c :: piece) :: more

/-- Python `str.strip()`: drop whitespace from both ends. -/
def pyStrip (s : List Char) : List Char :=
  ((s.dropWhile Char.isWhitespace).reverse.dropWhile Char.isWhitespace).reverse

/-- Python `str.upper()` (ASCII view, which covers the symbols in use). -/
def pyUpper (s : List Char) : List Char := s.map Char.toUpper

/-- Python `str.replace(pat, '')`: remove every occurrence of `pat`. -/
def pyRemoveAll (pat : List Char) : List Char → List Char
  | [] => []
  | c :: rest =>
      if h : pat ≠ [] ∧ pat.isPrefixOf (c :: rest) then
        pyRemoveAll pat ((c :: rest).drop pat.length)
      else
        c :: pyRemoveAll pat rest
termination_by s => s.length
decreasing_by
  · simp only [List.length_drop, List.length_cons]
    have hl : 0 < pat.length := List.length_pos.mpr h.1
    omega
  · simp

/-! ## Allocation parsing (bybit_bot.py lines 159-184) -/

/-- Python-dict insertion: replace the value if the key exists, otherwise
append (insertion order preserved). -/
def dictInsert (l : List (String × ℚ)) (k : String) (v : ℚ) :
    List (String × ℚ) :=
  if l.any (fun p => p.1 = k) then
    l.map (fun p => if p.1 = k then (k, v) else p)
  else l ++ [(k, v)]

/-- One pass of the parsing loop (bybit_bot.py lines 167-170) over the
comma-separated pieces.  `pf` is the oracle for Python `float()`
(`none` = `float` raises `ValueError`).  Returns the accumulated dict and
whether an exception aborted the loop: a piece without `':'` is silently
skipped; a piece with `':'` raises when it does not split into exactly two
parts or when `float` fails, and the loop then stops, keeping the pairs
accumulated so far (the dict is mutated in place in the source). -/
def allocParseLoop (pf : String → Option ℚ) :
    List (List Char) → List (String × ℚ) → List (String × ℚ) × Bool
  | [], acc => (acc, false)
  | p :: rest, acc =>
      if p.contains ':' then
        match pySplit ':' (pyStrip p) with
        | [sy, fs] =>
            match pf (String.mk fs) with
            | some f =>
                allocParseLoop pf rest (dictInsert acc (String.mk (pyUpper sy)) f)
            | none => (acc, true)
        | _ => (acc, true)
      else allocParseLoop pf rest acc

/-- Sum of the allocation fractions (`sum(crypto_allocation.values())`). -/
def allocTotal (l : List (String × ℚ)) : ℚ := (l.map Prod.snd).sum

/-- `get_crypto_allocation` (bybit_bot.py lines 159-184).  When the loop
raises, the `except` handler runs and the sum-check (lines 172-174) is
skipped; when the final dict is empty the no-allocation messages
(lines 181-182) are emitted. -/
def get_crypto_allocation (pf : String → Option ℚ) (s : String) :
    List Event × List (String × ℚ) :=
  if s = "" then
    ([.logMsg .noAlloc, .telegram .noAlloc], [])
  else
    let (acc, failed) := allocParseLoop pf (pySplit ',' s.toList) []
    let bodyEv :=
      if failed then catchEvents .allocParse
      else if acc ≠ [] ∧ 1 / 1000 < |allocTotal acc - 1| then
        [.logMsg .allocSumWarn, .telegram .allocSumWarn]
      else []
    if acc = [] then
      (bodyEv ++ [.logMsg .noAlloc, .telegram .noAlloc], [])
    else (bodyEv, acc)

/-- A comma-piece on which the source's parsing loop raises. -/
def pieceRaises (pf : String → Option ℚ) (p : List Char) : Bool :=
  p.contains ':' &&
    (match pySplit ':' (pyStrip p) with
     | [_, fs] => (pf (String.mk fs)).isNone
     | _ => true)

/-- One step of the independent allocation fold (for claim C9): parse one
comma-piece, skipping colon-less and unparsable pieces. -/
def allocFold (pf : String → Option ℚ) (acc : List (String × ℚ))
    (p : List Char) : List (String × ℚ) :=
  if p.contains ':' then
    match pySplit ':' (pyStrip p) with
    | [sy, fs] =>
        match pf (String.mk fs) with
        | some f => dictInsert acc (String.mk (pyUpper sy)) f
        | none => acc
    | _ => acc
  else acc

/-- Independent characterization (for claim C9): fold the successfully
parsed pairs of a piece list, skipping colon-less pieces. -/
def allocOfPieces (pf : String → Option ℚ) (ps : List (List Char)) :
    List (String × ℚ) :=
  ps.foldl (allocFold pf) []

/-! ## The Funding Resolver and Purchase Executor (bybit_bot.py lines 188-371) -/

/-- The configuration surface read from the environment:
`DAILY_USD`, `STABLECOIN_LIST` and the allocation string. -/
structure Config where
  daily : ℚ
  stables : List String
  allocString : String

/-- `USD_TYPE = STABLECOIN_LIST[0]` (bybit_bot.py line 37). -/
def Config.primary (cfg : Config) : String := cfg.stables.headD "USDT"

/-- Oracle for step 2 of the resolver (primary-coin redemption attempt):
outcome of the `get_staked_position` fetch (`.ok (some r)` = a position
with extracted redeemable value `r`), the `stake_or_redeem` oracle, and the
balance re-read of line 242. -/
structure PrimaryOracle where
  stakedFetch : Except Unit (Option ℚ)
  stake : StakeOracle
  reRead : BalanceOracle

/-- Oracle for one candidate currency of step 3 of the resolver. -/
structure SecondaryOracle where
  stakedFetch : Except Unit (Option ℚ)
  stake : StakeOracle
  utaBal : BalanceOracle
  convert : ConvertOracle
  reRead : BalanceOracle

/-- Oracle for one purchase-loop iteration. -/
structure PurchaseOracle where
  convert : ConvertOracle
  postBal : BalanceOracle
  stake : StakeOracle

/-- Oracle for one whole `run_dca_bot` invocation. -/
structure RunOracle where
  initialBal : BalanceOracle
  primaryStep : PrimaryOracle
  secondary : String → SecondaryOracle
  finalBal : BalanceOracle
  purchase : String → PurchaseOracle

/-- Step 2 of the resolver (bybit_bot.py lines 204-243): attempt redemption
of the primary stablecoin.  Takes the required budget and the initial
balance; returns the re-read balance and the recomputed deficit.  When the
initial deficit is not positive the whole step is skipped and the balance
is passed through.  An exception escaping `stake_or_redeem` (product-info
lookup failure) propagates. -/
def primary_step (cfg : Config) (needed bal : ℚ) (o : PrimaryOracle) :
    List Event × Except Unit (ℚ × ℚ) :=
  let cover := needed - bal
  if 0 < cover then
    let fetchEv :=
      match o.stakedFetch with
      | .error _ => Event.queryStaked cfg.primary :: catchEvents .primaryStakedFetch
      | .ok none => [Event.queryStaked cfg.primary]
      | .ok (some r) => [Event.queryStaked cfg.primary, Event.redeemableSeen cfg.primary r]
    let redeemable : ℚ :=
      match o.stakedFetch with
      | .ok (some r) => r
      | _ => 0
    let ev0 := Event.logMsg .deficitPrimary :: fetchEv
    if 0 < redeemable then
      let amount_to_redeem := min (max (cover * BUFFER_MULTIPLIER) MIN_REDEMPTION_USD) redeemable
      let askEv := [Event.logMsg .attemptRedeemPrimary, Event.telegram .redeemingPrimaryTg]
      match stake_or_redeem .redeem amount_to_redeem cfg.primary o.stake with
      | (sEv, .error e) => (ev0 ++ askEv ++ sEv, .error e)
      | (sEv, .ok ok) =>
          let sleepEv := if ok then [Event.sleep (15 / 2)] else []
          let (rEv, b2) := get_coin_balance cfg.primary o.reRead
          (ev0 ++ askEv ++ sEv ++ sleepEv ++ rEv, .ok (b2, needed - b2))
    else
      let (rEv, b2) := get_coin_balance cfg.primary o.reRead
      (ev0 ++ rEv, .ok (b2, needed - b2))
  else ([], .ok (bal, cover))

/-- Step 3 of the resolver (bybit_bot.py lines 250-311): iterate the
secondary stablecoins, redeem and convert to the primary.  State carried
through the loop is `(final_coin_balance, amount_to_cover)`. -/
def secondary_loop (cfg : Config) (needed : ℚ) (so : String → SecondaryOracle)
    (fb cover : ℚ) : List String → List Event × Except Unit (ℚ × ℚ)
  | [] => ([], .ok (fb, cover))
  | c :: rest =>
      if c = cfg.primary then secondary_loop cfg needed so fb cover rest
      else
        match (so c).stakedFetch with
        | .error _ =>
            let (ev, r) := secondary_loop cfg needed so fb cover rest
            (Event.queryStaked c :: catchEvents .secondaryStakedFetch ++ ev, r)
        | .ok none =>
            let (ev, r) := secondary_loop cfg needed so fb cover rest
            (Event.queryStaked c :: ev, r)
        | .ok (some sr) =>
            let seenEv := [Event.queryStaked c, Event.redeemableSeen c sr]
            if 0 < sr then
              let amount_to_redeem := min (max (cover * BUFFER_MULTIPLIER) MIN_REDEMPTION_USD) sr
              let askEv := [Event.logMsg .attemptRedeemSecondary, Event.telegram .redeemingSecondaryTg]
              match stake_or_redeem .redeem amount_to_redeem c ((so c).stake) with
              | (sEv, .error e) => (seenEv ++ askEv ++ sEv, .error e)
              | (sEv, .ok false) =>
                  let (ev, r) := secondary_loop cfg needed so fb cover rest
                  (seenEv ++ askEv ++ sEv ++ ev, r)
              | (sEv, .ok true) =>
                  let (uEv, rb) := get_coin_balance c ((so c).utaBal)
                  let cEvPre := seenEv ++ askEv ++ sEv ++ [Event.sleep 5] ++ uEv
                      ++ [Event.logMsg .convertAllInfo]
                  let (cnvEv, q) := convert_coins c cfg.primary rb ((so c).convert)
                  if 0 < q.toAmount then
                    let (rEv, fb2) := get_coin_balance cfg.primary ((so c).reRead)
                    let cover2 := needed - fb2
                    if cover2 ≤ 0 then
                      (cEvPre ++ cnvEv ++ [Event.logMsg .convertGained] ++ rEv
                         ++ [Event.logMsg .deficitCovered], .ok (fb2, cover2))
                    else
                      let (ev, r) := secondary_loop cfg needed so fb2 cover2 rest
                      (cEvPre ++ cnvEv ++ [Event.logMsg .convertGained] ++ rEv
                         ++ [Event.logMsg .deficitRemains] ++ ev, r)
                  else
                    let (ev, r) := secondary_loop cfg needed so fb cover rest
                    (cEvPre ++ cnvEv ++ [Event.logMsg .convertFailed] ++ ev, r)
            else
              let (ev, r) := secondary_loop cfg needed so fb cover rest
              (seenEv ++ ev, r)

/-- The purchase loop with post-purchase staking (bybit_bot.py
lines 324-371): iterate the allocation, convert the primary coin into each
asset, log the trade, decrement the tracked balance by the quote's
from-amount, then auto-stake SOL / notify for ETH.  The SOL staking call
can raise (product-info lookup), which propagates. -/
def purchase_loop (cfg : Config) (po : String → PurchaseOracle) (bal : ℚ) :
    List (String × ℚ) → List Event × Except Unit ℚ
  | [] => ([], .ok bal)
  | (symbol, multiplier) :: rest =>
      let buy_amount_usd := multiplier * cfg.daily
      if bal < buy_amount_usd then
        let (ev, r) := purchase_loop cfg po bal rest
        (Event.logMsg .notEnoughForSymbol :: Event.telegram .notEnoughForSymbol :: ev, r)
      else
        let headEv := [Event.logMsg .buyingSymbol, Event.telegram .buyingSymbol]
        let (cnvEv, q) := convert_coins cfg.primary symbol buy_amount_usd ((po symbol).convert)
        let (tEv, bal2) :=
          if 0 < q.toAmount then
            ([Event.tradeLog (q.toCoin ++ q.fromCoin) q.toAmount
                (if q.toAmount ≠ 0 then q.fromAmount / q.toAmount else 0) q.fromAmount],
             bal - q.fromAmount)
          else ([], bal)
        let (bEv, coin_balance) := get_coin_balance symbol ((po symbol).postBal)
        let ev0 := headEv ++ cnvEv ++ tEv ++ bEv
        if symbol = "SOL" ∧ 1 / 10 ≤ coin_balance then
          match stake_or_redeem .stake coin_balance symbol ((po symbol).stake) with
          | (sEv, .error e) => (ev0 ++ [Event.logMsg .tryStakeInfo] ++ sEv, .error e)
          | (sEv, .ok _) =>
              let (ev, r) := purchase_loop cfg po bal2 rest
              (ev0 ++ [Event.logMsg .tryStakeInfo] ++ sEv ++ ev, r)
        else if symbol = "ETH" ∧ 1 / 100 ≤ coin_balance then
          let (ev, r) := purchase_loop cfg po bal2 rest
          (ev0 ++ [Event.telegram .ethManualAction] ++ ev, r)
        else
          let (ev, r) := purchase_loop cfg po bal2 rest
          (ev0 ++ ev, r)

/-- Steps 1-3 of `run_dca_bot` (bybit_bot.py lines 200-311): initial
balance read, primary redemption attempt, secondary fallback loop.
Returns the resolver's final `final_coin_balance`. -/
def funding_phase (cfg : Config) (needed : ℚ) (o : RunOracle) :
    List Event × Except Unit ℚ :=
  let (bEv, bal) := get_coin_balance cfg.primary o.initialBal
  let ev0 := bEv ++ [Event.logMsg .availableBalance]
  match primary_step cfg needed bal o.primaryStep with
  | (pEv, .error e) => (ev0 ++ pEv, .error e)
  | (pEv, .ok (fb, cover)) =>
      if 0 < cover then
        let (sEv, r) := secondary_loop cfg needed o.secondary fb cover cfg.stables
        match r with
        | .error e => (ev0 ++ pEv ++ Event.logMsg .deficitStep3 :: sEv, .error e)
        | .ok (fb2, _) => (ev0 ++ pEv ++ Event.logMsg .deficitStep3 :: sEv, .ok fb2)
      else (ev0 ++ pEv, .ok fb)

/-- `run_dca_bot` (bybit_bot.py lines 188-371).  `pf` is the `float()`
oracle used by the allocation parser. -/
def run_dca_bot (cfg : Config) (pf : String → Option ℚ) (o : RunOracle) :
    List Event × Except Unit Unit :=
  let startEv := [Event.logMsg .botRunning, Event.telegram .botRunning]
  let (aEv, alloc) := get_crypto_allocation pf cfg.allocString
  if alloc = [] then (startEv ++ aEv, .ok ())
  else
    let needed := allocTotal alloc * cfg.daily
    match funding_phase cfg needed o with
    | (fEv, .error e) => (startEv ++ aEv ++ fEv, .error e)
    | (fEv, .ok _) =>
        let (b4Ev, b4) := get_coin_balance cfg.primary o.finalBal
        let ev1 := startEv ++ aEv ++ fEv ++ b4Ev
        if b4 < needed then
          (ev1 ++ [Event.logMsg .insufficientFunds, Event.telegram .insufficientFunds],
           .ok ())
        else
          match purchase_loop cfg o.purchase b4 alloc with
          | (uEv, .error e) => (ev1 ++ uEv, .error e)
          | (uEv, .ok _) => (ev1 ++ uEv, .ok ())

/-- The required budget of a run: `np.sum(list(values)) * DAILY_USD`
(bybit_bot.py line 198). -/
def requiredBudget (cfg : Config) (pf : String → Option ℚ) : ℚ :=
  allocTotal (get_crypto_allocation pf cfg.allocString).2 * cfg.daily

/-! ## The binance variant (binance_dca.py) -/

/-- Outcome of the `redeem_flexible_product` call: it can raise a
`ClientError` (caught by the empty handler), raise some other exception
(uncaught), or return a response with a boolean `success` field. -/
inductive BinRedeemOutcome
  | raiseClientError
  | raiseOther
  | ret (success : Bool)
deriving DecidableEq

/-- Oracle for one `buy_crypto` invocation: the `new_order` call (filled
quantity and average price on success) and the savings subscription. -/
structure BinBuyOracle where
  order : Except Unit (ℚ × ℚ)
  subscribe : Except Unit Bool

/-- Oracle for one `daily_dca` invocation of the binance variant. -/
structure BinOracle where
  balance : Except Unit (Option ℚ)
  redeem : BinRedeemOutcome
  buyEth : BinBuyOracle
  buySol : BinBuyOracle
  pnl : Except Unit Unit

/-- The balance value `get_usdc_balance` yields for a given oracle. -/
def binBalanceValue (o : BinOracle) : ℚ :=
  match o.balance with
  | .ok (some v) => v
  | _ => 0

/-- `get_usdc_balance` (binance_dca.py lines 64-72). -/
def get_usdc_balance (o : BinOracle) : List Event × ℚ :=
  match o.balance with
  | .error _ => (.queryBalance "USDC" :: catchEvents .binBalance, 0)
  | .ok none => ([.queryBalance "USDC"], 0)
  | .ok (some v) => ([.queryBalance "USDC"], v)

/-- `redeem_usdc_from_flexible` (binance_dca.py lines 43-61).  The `amount`
parameter is accepted but the API call always redeems `DAILY_USDC`
(line 48).  A raised `ClientError` is caught by a handler that only
evaluates (and discards) a format string, after which the read of the
unbound `response` raises `NameError`, which escapes; any other exception
escapes directly.  When the call returns a response whose `success` field
is not `True`, the else branch's f-string evaluates `response.text` on the
returned dict (line 59), raising an uncaught `AttributeError` before the
print and the notification, so that path also escapes with no log line.
Only a success response is logged, notified and returned from normally.
The function returns `None` (here `Unit`). -/
def redeem_usdc_from_flexible (amount : ℚ) (r : BinRedeemOutcome) :
    List Event × Except Unit Unit :=
  match r with
  | .raiseClientError =>
      (.binRedeem DAILY_USDC :: catchEvents .binRedeemClientError, .error ())
  | .raiseOther => ([.binRedeem DAILY_USDC], .error ())
  | .ret true =>
      ([.binRedeem DAILY_USDC, .logMsg .binUnstaked, .telegram .binUnstaked], .ok ())
  | .ret false => ([.binRedeem DAILY_USDC], .error ())

/-- `subscribe_to_flexible_savings` (binance_dca.py lines 121-146). -/
def subscribe_to_flexible_savings (asset : String) (amount : ℚ)
    (s : Except Unit Bool) : List Event :=
  match s with
  | .error _ => .binSubscribeCall asset amount :: catchEvents .binSubscribe
  | .ok true =>
      [.binSubscribeCall asset amount, .logMsg .binSubscribed, .telegram .binSubscribed]
  | .ok false =>
      [.binSubscribeCall asset amount, .logMsg .binSubscribeFailed,
       .telegram .binSubscribeFailed]

/-- `buy_crypto` (binance_dca.py lines 75-101): market order, trade log,
notification, then subscription of the bought asset (whole body inside
`try`, so nothing escapes). -/
def buy_crypto (symbol : String) (usdc_amount : ℚ) (o : BinBuyOracle) :
    List Event :=
  match o.order with
  | .error _ => .buyOrder symbol usdc_amount :: catchEvents .binBuy
  | .ok (qty, price) =>
      let asset := String.mk (pyRemoveAll "USDC".toList symbol.toList)
      [.buyOrder symbol usdc_amount, .tradeLog symbol qty price usdc_amount,
       .logMsg .binBought, .telegram .binBought]
        ++ subscribe_to_flexible_savings asset qty o.subscribe

/-- `daily_dca` (binance_dca.py lines 149-188): if the spot balance is
below `MIN_REQUIRED_BALANCE`, submit a redemption, wait (nine 1-second
sleeps, lines 155-157), notify and return -- the balance is never re-read;
otherwise buy ETH and SOL and report PnL. -/
def daily_dca (o : BinOracle) : List Event × Except Unit Unit :=
  let startEv := [Event.telegram .binStart]
  let (bEv, balance) := get_usdc_balance o
  if balance < MIN_REQUIRED_BALANCE then
    match redeem_usdc_from_flexible MIN_REQUIRED_BALANCE o.redeem with
    | (rEv, .error e) => (startEv ++ bEv ++ rEv, .error e)
    | (rEv, .ok _) =>
        (startEv ++ bEv ++ rEv ++ List.replicate 9 (Event.sleep 1)
           ++ [Event.logMsg .binSkipTrade, Event.telegram .binSkipTrade], .ok ())
  else
    let buyEv := buy_crypto "ETHUSDC" (DAILY_USDC * ethShare) o.buyEth
        ++ buy_crypto "SOLUSDC" (DAILY_USDC * solShare) o.buySol
    let pnlEv :=
      match o.pnl with
      | .error _ => catchEvents .binPnl
      | .ok _ => [Event.logMsg .binPnlReport, Event.telegram .binPnlReport]
    (startEv ++ bEv ++ buyEv ++ [Event.logMsg .binCompleted, Event.telegram .binCompleted]
       ++ pnlEv, .ok ())

/-! ## Arithmetic facts about `round6` and the clamp formula -/

theorem round6_mono {a b : ℚ} (h : a ≤ b) : round6 a ≤ round6 b := by
  unfold round6
  have h2 : round (a * 1000000) ≤ round (b * 1000000) := by
    rw [round_eq, round_eq]
    exact Int.floor_le_floor (by linarith)
  have h3 : ((round (a * 1000000) : ℤ) : ℚ) ≤ ((round (b * 1000000) : ℤ) : ℚ) :=
    Int.cast_le.mpr h2
  linarith

theorem round6_ten : round6 (10 : ℚ) = 10 := by
  unfold round6
  norm_num

/-- The clamp `min (max (d * BUFFER) MIN) r` used for every redemption:
after rounding it is at most `round6 r`, at least `MIN_REDEMPTION_USD` when
`r` itself is, and equal to the unclamped `round6 (max ...)` when the
buffered requirement fits under `r`. -/
theorem clamp_spec (d r : ℚ) :
    round6 (min (max (d * BUFFER_MULTIPLIER) MIN_REDEMPTION_USD) r) ≤ round6 r ∧
    (MIN_REDEMPTION_USD ≤ r →
      MIN_REDEMPTION_USD ≤
        round6 (min (max (d * BUFFER_MULTIPLIER) MIN_REDEMPTION_USD) r)) ∧
    (max (d * BUFFER_MULTIPLIER) MIN_REDEMPTION_USD ≤ r →
      round6 (min (max (d * BUFFER_MULTIPLIER) MIN_REDEMPTION_USD) r) =
        round6 (max (d * BUFFER_MULTIPLIER) MIN_REDEMPTION_USD)) := by
  refine ⟨round6_mono (min_le_right _ _), fun h => ?_, fun h => ?_⟩
  · have h1 : MIN_REDEMPTION_USD ≤ min (max (d * BUFFER_MULTIPLIER) MIN_REDEMPTION_USD) r :=
      le_min (le_max_right _ _) h
    calc MIN_REDEMPTION_USD = round6 MIN_REDEMPTION_USD := by
          unfold MIN_REDEMPTION_USD; exact round6_ten.symm
      _ ≤ _ := round6_mono h1
  · rw [min_eq_left h]

/-! ## Claim C2: exception boundary of the Savings Redemption Executor -/

/-- C2, counterexample: an exchange failure inside `stake_or_redeem` is NOT
always converted to `False` -- the `get_earn_product_info` call is outside
the `try` block, so its exception escapes the executor's boundary. -/
theorem c2_counterexample :
    (stake_or_redeem .redeem 10 "USDT"
      { productInfo := .error (), submit := .ok 0 }).2 = .error () := rfl

/-- C2 (amended): `stake_or_redeem` returns a boolean, and any failure of
the `stake_or_redeem` exchange call itself is caught and converted to
`false`, whenever the `get_earn_product_info` lookup does not raise; a
failure of that lookup, however, escapes the executor as an exception. -/
theorem c2_stake_or_redeem_boundary_amended (ot : OrderTy) (amount : ℚ)
    (coin : String) (o : StakeOracle) :
    (∀ e, o.productInfo = .error e →
      (stake_or_redeem ot amount coin o).2 = .error e) ∧
    (∀ x, o.productInfo = .ok x →
      ∃ b, (stake_or_redeem ot amount coin o).2 = .ok b) ∧
    (∀ u, o.productInfo = .ok (some u) → o.submit = .error () →
      (stake_or_redeem ot amount coin o).2 = .ok false) := by
  obtain ⟨pi, sm⟩ := o
  refine ⟨fun e he => ?_, fun x hx => ?_, fun u hu hs => ?_⟩
  · cases he; rfl
  · cases hx
    cases x with
    | none => exact ⟨false, rfl⟩
    | some u =>
        cases sm with
        | error e => exact ⟨false, rfl⟩
        | ok rc =>
            by_cases h : rc = 0
            · exact ⟨true, by simp [stake_or_redeem, h]⟩
            · exact ⟨false, by simp [stake_or_redeem, h]⟩
  · cases hu; cases hs; rfl

/-- C2 witness: the amended theorem applied at a concrete oracle whose
submit call raises; the executor returns `false`. -/
theorem c2_witness :
    ((⟨.ok (some ()), .error ()⟩ : StakeOracle).productInfo = .ok (some ())) ∧
    (stake_or_redeem .redeem 10 "USDT" ⟨.ok (some ()), .error ()⟩).2 = .ok false :=
  ⟨rfl, (c2_stake_or_redeem_boundary_amended .redeem 10 "USDT"
    ⟨.ok (some ()), .error ()⟩).2.2 () rfl rfl⟩

/-! ## Claim C7: Conversion Executor sentinel behaviour -/

/-- C7: conversion amounts below the 0.01 dust threshold produce no
exchange call and yield the zero-amount sentinel; a failed quote request or
a failed confirmation likewise yields the sentinel instead of an exception
(the result type of `convert_coins` is not fallible at all), so callers can
uniformly test `toAmount > 0`. -/
theorem c7_convert_sentinel (f t : String) (a : ℚ) (o : ConvertOracle) :
    (a < 1 / 100 →
      (convert_coins f t a o).1 = [.logMsg .convertTooSmall] ∧
      (convert_coins f t a o).2 = sentinel f t) ∧
    (o.quote = .error () → (convert_coins f t a o).2 = sentinel f t) ∧
    (o.confirmFails = true → (convert_coins f t a o).2 = sentinel f t) ∧
    (sentinel f t).toAmount = 0 := by
  obtain ⟨q, cf⟩ := o
  refine ⟨fun h => ?_, fun h => ?_, fun h => ?_, rfl⟩
  · unfold convert_coins
    rw [if_pos h]
    exact ⟨rfl, rfl⟩
  · cases h
    simp only [convert_coins]
    split
    · rfl
    · rfl
  · cases h
    simp only [convert_coins]
    split
    · rfl
    · cases q with
      | error e => rfl
      | ok qq => rfl

/-- C7 witness: at the concrete dust-level amount 0.005 no exchange event
is emitted and the sentinel is returned. -/
theorem c7_witness :
    ((5 / 1000 : ℚ) < 1 / 100) ∧
    (convert_coins "USDT" "BTC" (5 / 1000)
        { quote := .ok ⟨"USDT", "BTC", 1, 1⟩, confirmFails := false }).1 =
      [.logMsg .convertTooSmall] ∧
    (convert_coins "USDT" "BTC" (5 / 1000)
        { quote := .ok ⟨"USDT", "BTC", 1, 1⟩, confirmFails := false }).2 =
      sentinel "USDT" "BTC" :=
  ⟨by norm_num,
   ((c7_convert_sentinel "USDT" "BTC" (5 / 1000)
      { quote := .ok ⟨"USDT", "BTC", 1, 1⟩, confirmFails := false }).1
     (by norm_num)).1,
   ((c7_convert_sentinel "USDT" "BTC" (5 / 1000)
      { quote := .ok ⟨"USDT", "BTC", 1, 1⟩, confirmFails := false }).1
     (by norm_num)).2⟩

/-! ## Claim C8: caught failures, logging and notification -/

/-- C8, counterexample: not every caught failure produces both a log line
and a Telegram notification.  The `ClientError` handler of the binance
redemption (binance_dca.py lines 50-53) produces neither (its body is a
discarded format-string expression), and the staked-position fetch handlers
of bybit_bot.py (lines 221-222 and 262-264) produce only a log line. -/
theorem c8_counterexample :
    ¬ ∀ s : CatchSite, (∃ t, Event.logMsg t ∈ catchEvents s) ∧
        (∃ t, Event.telegram t ∈ catchEvents s) := by
  intro h
  have := (h .binRedeemClientError).1
  simp [catchEvents] at this

/-- C8 (amended): every caught failure except the binance `ClientError`
handler produces a log line, and every caught failure except that handler,
the Telegram-delivery handler itself, and the two staked-position fetch
handlers also produces an outward Telegram notification. -/
theorem c8_catch_handler_amended :
    ∀ s : CatchSite,
      (s ≠ .binRedeemClientError → ∃ t, Event.logMsg t ∈ catchEvents s) ∧
      (s ≠ .binRedeemClientError → s ≠ .telegramPost → s ≠ .primaryStakedFetch →
        s ≠ .secondaryStakedFetch → ∃ t, Event.telegram t ∈ catchEvents s) := by
  decide

/-- C8 witness: the amended theorem applied at the wallet-balance catch
site, which logs and notifies. -/
theorem c8_witness :
    (CatchSite.getBalance ≠ CatchSite.binRedeemClientError) ∧
    (∃ t, Event.logMsg t ∈ catchEvents .getBalance) ∧
    (∃ t, Event.telegram t ∈ catchEvents .getBalance) :=
  ⟨by decide, (c8_catch_handler_amended .getBalance).1 (by decide),
   (c8_catch_handler_amended .getBalance).2 (by decide) (by decide) (by decide)
     (by decide)⟩

/-! ## Trace-shape lemmas for the leaf executors -/

theorem catchEvents_mem {s : CatchSite} {e : Event} (h : e ∈ catchEvents s) :
    (∃ t, e = Event.logMsg t) ∨ (∃ t, e = Event.telegram t) := by
  cases s <;> simp [catchEvents] at h <;>
    first
      | (rcases h with h | h
         · exact Or.inl ⟨_, h⟩
         · exact Or.inr ⟨_, h⟩)
      | exact Or.inl ⟨_, h⟩
      | exact Or.inr ⟨_, h⟩

theorem get_coin_balance_mem {coin : String} {b : BalanceOracle} {e : Event}
    (h : e ∈ (get_coin_balance coin b).1) :
    e = Event.queryBalance coin ∨ (∃ t, e = Event.logMsg t) ∨
      (∃ t, e = Event.telegram t) := by
  obtain ⟨r⟩ := b
  cases r with
  | error u =>
      simp [get_coin_balance] at h
      rcases h with h | h
      · exact Or.inl h
      · rcases catchEvents_mem h with h' | h'
        · exact Or.inr (Or.inl h')
        · exact Or.inr (Or.inr h')
  | ok v =>
      cases v <;> simp [get_coin_balance] at h <;> exact Or.inl h

theorem stake_or_redeem_mem {ot : OrderTy} {amt : ℚ} {coin : String}
    {o : StakeOracle} {e : Event}
    (h : e ∈ (stake_or_redeem ot amt coin o).1) :
    e = Event.queryEarnProduct coin ∨ e = Event.earnSubmit ot coin (round6 amt) ∨
      (∃ t, e = Event.logMsg t) ∨ (∃ t, e = Event.telegram t) := by
  obtain ⟨pi, sm⟩ := o
  cases pi with
  | error u => simp [stake_or_redeem] at h; exact Or.inl h
  | ok x =>
      cases x with
      | none =>
          simp [stake_or_redeem] at h
          rcases h with h | h | h
          · exact Or.inl h
          · exact Or.inr (Or.inr (Or.inl ⟨_, h⟩))
          · exact Or.inr (Or.inr (Or.inr ⟨_, h⟩))
      | some u =>
          cases sm with
          | error v =>
              simp [stake_or_redeem] at h
              rcases h with h | h | h
              · exact Or.inl h
              · exact Or.inr (Or.inl h)
              · rcases catchEvents_mem h with h' | h'
                · exact Or.inr (Or.inr (Or.inl h'))
                · exact Or.inr (Or.inr (Or.inr h'))
          | ok rc =>
              by_cases hrc : rc = 0 <;> simp [stake_or_redeem, hrc] at h <;>
                rcases h with h | h | h | h
              · exact Or.inl h
              · exact Or.inr (Or.inl h)
              · exact Or.inr (Or.inr (Or.inl ⟨_, h⟩))
              · exact Or.inr (Or.inr (Or.inr ⟨_, h⟩))
              · exact Or.inl h
              · exact Or.inr (Or.inl h)
              · exact Or.inr (Or.inr (Or.inl ⟨_, h⟩))
              · exact Or.inr (Or.inr (Or.inr ⟨_, h⟩))

theorem stake_or_redeem_earnSubmit {ot : OrderTy} {amt : ℚ} {coin : String}
    {o : StakeOracle} {ot' : OrderTy} {c' : String} {a' : ℚ}
    (h : Event.earnSubmit ot' c' a' ∈ (stake_or_redeem ot amt coin o).1) :
    ot' = ot ∧ c' = coin ∧ a' = round6 amt := by
  rcases stake_or_redeem_mem h with h' | h' | h' | h'
  · exact absurd h' (by simp)
  · injection h' with h1 h2 h3
    exact ⟨h1, h2, h3⟩
  · rcases h' with ⟨t, ht⟩; exact absurd ht (by simp)
  · rcases h' with ⟨t, ht⟩; exact absurd ht (by simp)

theorem convert_coins_mem {f t : String} {a : ℚ} {o : ConvertOracle} {e : Event}
    (h : e ∈ (convert_coins f t a o).1) :
    e = Event.quoteRequest f t a ∨ e = Event.quoteConfirm ∨
      (∃ x y u v, e = Event.convertDone x y u v) ∨
      (∃ tg, e = Event.logMsg tg) ∨ (∃ tg, e = Event.telegram tg) := by
  obtain ⟨q, cf⟩ := o
  by_cases hd : a < 1 / 100
  · unfold convert_coins at h
    rw [if_pos hd] at h
    simp at h
    exact Or.inr (Or.inr (Or.inr (Or.inl ⟨_, h⟩)))
  · unfold convert_coins at h
    rw [if_neg hd] at h
    cases q with
    | error u =>
        simp at h
        rcases h with h | h
        · exact Or.inl h
        · rcases catchEvents_mem h with h' | h'
          · exact Or.inr (Or.inr (Or.inr (Or.inl h')))
          · exact Or.inr (Or.inr (Or.inr (Or.inr h')))
    | ok qq =>
        cases cf <;> simp at h
        · rcases h with h | h | h | h | h
          · exact Or.inl h
          · exact Or.inr (Or.inl h)
          · exact Or.inr (Or.inr (Or.inl ⟨_, _, _, _, h⟩))
          · exact Or.inr (Or.inr (Or.inr (Or.inl ⟨_, h⟩)))
          · exact Or.inr (Or.inr (Or.inr (Or.inr ⟨_, h⟩)))
        · rcases h with h | h | h
          · exact Or.inl h
          · exact Or.inr (Or.inl h)
          · rcases catchEvents_mem h with h' | h'
            · exact Or.inr (Or.inr (Or.inr (Or.inl h')))
            · exact Or.inr (Or.inr (Or.inr (Or.inr h')))

theorem get_crypto_allocation_mem {pf : String → Option ℚ} {s : String} {e : Event}
    (h : e ∈ (get_crypto_allocation pf s).1) :
    (∃ t, e = Event.logMsg t) ∨ (∃ t, e = Event.telegram t) := by
  unfold get_crypto_allocation at h
  by_cases hs : s = ""
  · rw [if_pos hs] at h
    simp at h
    rcases h with h | h
    · exact Or.inl ⟨_, h⟩
    · exact Or.inr ⟨_, h⟩
  · rw [if_neg hs] at h
    rcases hp : allocParseLoop pf (pySplit ',' s.toList) [] with ⟨acc, failed⟩
    rw [hp] at h
    dsimp only at h
    have hbody : ∀ x ∈ (if failed then catchEvents .allocParse
        else if acc ≠ [] ∧ 1 / 1000 < |allocTotal acc - 1| then
          [Event.logMsg .allocSumWarn, Event.telegram .allocSumWarn]
        else []),
        (∃ t, x = Event.logMsg t) ∨ (∃ t, x = Event.telegram t) := by
      intro x hx
      cases failed with
      | true => exact catchEvents_mem (by simpa using hx)
      | false =>
          simp only [Bool.false_eq_true, if_false] at hx
          split at hx
          · simp at hx
            rcases hx with hx | hx
            · exact Or.inl ⟨_, hx⟩
            · exact Or.inr ⟨_, hx⟩
          · simp at hx
    by_cases ha : acc = []
    · rw [if_pos ha] at h
      simp only [List.mem_append] at h
      rcases h with h | h
      · exact hbody e h
      · simp at h
        rcases h with h | h
        · exact Or.inl ⟨_, h⟩
        · exact Or.inr ⟨_, h⟩
    · rw [if_neg ha] at h
      exact hbody e h

theorem primary_step_mem {cfg : Config} {needed bal : ℚ} {o : PrimaryOracle}
    {e : Event} (h : e ∈ (primary_step cfg needed bal o).1) :
    (∃ t, e = Event.logMsg t) ∨ (∃ t, e = Event.telegram t) ∨
    e = Event.queryStaked cfg.primary ∨
    (∃ r, e = Event.redeemableSeen cfg.primary r) ∨
    e = Event.queryEarnProduct cfg.primary ∨
    (∃ a, e = Event.earnSubmit .redeem cfg.primary a) ∨
    (∃ s, e = Event.sleep s) ∨ e = Event.queryBalance cfg.primary := by
  obtain ⟨sf, sk, rr⟩ := o
  by_cases hc : 0 < needed - bal
  swap
  · simp [primary_step, hc] at h
  rcases hgb : get_coin_balance cfg.primary rr with ⟨rEv, b2⟩
  have hrEv : ∀ x ∈ rEv, x = Event.queryBalance cfg.primary ∨
      (∃ t, x = Event.logMsg t) ∨ (∃ t, x = Event.telegram t) := by
    intro x hx
    exact get_coin_balance_mem (by rw [hgb]; exact hx)
  cases sf with
  | error u =>
      simp [primary_step, hc, hgb] at h
      rcases h with h | h | h | h
      · exact Or.inl ⟨_, h⟩
      · subst h; exact Or.inr (Or.inr (Or.inl rfl))
      · rcases catchEvents_mem h with h' | h'
        · exact Or.inl h'
        · exact Or.inr (Or.inl h')
      · rcases hrEv e h with h' | h' | h'
        · exact Or.inr (Or.inr (Or.inr (Or.inr (Or.inr (Or.inr (Or.inr h'))))))
        · exact Or.inl h'
        · exact Or.inr (Or.inl h')
  | ok x =>
      cases x with
      | none =>
          simp [primary_step, hc, hgb] at h
          rcases h with h | h | h
          · exact Or.inl ⟨_, h⟩
          · subst h; exact Or.inr (Or.inr (Or.inl rfl))
          · rcases hrEv e h with h' | h' | h'
            · exact Or.inr (Or.inr (Or.inr (Or.inr (Or.inr (Or.inr (Or.inr h'))))))
            · exact Or.inl h'
            · exact Or.inr (Or.inl h')
      | some r =>
          by_cases hr : 0 < r
          swap
          · simp [primary_step, hc, hr, hgb] at h
            rcases h with h | h | h | h
            · exact Or.inl ⟨_, h⟩
            · subst h; exact Or.inr (Or.inr (Or.inl rfl))
            · subst h; exact Or.inr (Or.inr (Or.inr (Or.inl ⟨_, rfl⟩)))
            · rcases hrEv e h with h' | h' | h'
              · exact Or.inr (Or.inr (Or.inr (Or.inr (Or.inr (Or.inr (Or.inr h'))))))
              · exact Or.inl h'
              · exact Or.inr (Or.inl h')
          · rcases hsr : stake_or_redeem .redeem
                (min (max ((needed - bal) * BUFFER_MULTIPLIER) MIN_REDEMPTION_USD) r)
                cfg.primary sk with ⟨sEv, res⟩
            have hsEv : ∀ x ∈ sEv, x = Event.queryEarnProduct cfg.primary ∨
                x = Event.earnSubmit .redeem cfg.primary
                  (round6 (min (max ((needed - bal) * BUFFER_MULTIPLIER)
                    MIN_REDEMPTION_USD) r)) ∨
                (∃ t, x = Event.logMsg t) ∨ (∃ t, x = Event.telegram t) := by
              intro x hx
              exact stake_or_redeem_mem (by rw [hsr]; exact hx)
            have hcore : ∀ x, x = Event.queryEarnProduct cfg.primary ∨
                x = Event.earnSubmit .redeem cfg.primary
                  (round6 (min (max ((needed - bal) * BUFFER_MULTIPLIER)
                    MIN_REDEMPTION_USD) r)) ∨
                (∃ t, x = Event.logMsg t) ∨ (∃ t, x = Event.telegram t) →
                (∃ t, x = Event.logMsg t) ∨ (∃ t, x = Event.telegram t) ∨
                x = Event.queryStaked cfg.primary ∨
                (∃ rr, x = Event.redeemableSeen cfg.primary rr) ∨
                x = Event.queryEarnProduct cfg.primary ∨
                (∃ a, x = Event.earnSubmit .redeem cfg.primary a) ∨
                (∃ s, x = Event.sleep s) ∨ x = Event.queryBalance cfg.primary := by
              intro x hx
              rcases hx with hx | hx | hx | hx
              · exact Or.inr (Or.inr (Or.inr (Or.inr (Or.inl hx))))
              · exact Or.inr (Or.inr (Or.inr (Or.inr (Or.inr (Or.inl ⟨_, hx⟩)))))
              · exact Or.inl hx
              · exact Or.inr (Or.inl hx)
            cases res with
            | error u =>
                simp [primary_step, hc, hr, hsr] at h
                rcases h with h | h | h | h | h | h
                · exact Or.inl ⟨_, h⟩
                · subst h; exact Or.inr (Or.inr (Or.inl rfl))
                · subst h; exact Or.inr (Or.inr (Or.inr (Or.inl ⟨_, rfl⟩)))
                · exact Or.inl ⟨_, h⟩
                · exact Or.inr (Or.inl ⟨_, h⟩)
                · exact hcore e (hsEv e h)
            | ok okb =>
                simp [primary_step, hc, hr, hsr, hgb] at h
                rcases h with h | h | h | h | h | h | h | h
                · exact Or.inl ⟨_, h⟩
                · subst h; exact Or.inr (Or.inr (Or.inl rfl))
                · subst h; exact Or.inr (Or.inr (Or.inr (Or.inl ⟨_, rfl⟩)))
                · exact Or.inl ⟨_, h⟩
                · exact Or.inr (Or.inl ⟨_, h⟩)
                · exact hcore e (hsEv e h)
                · rcases h with ⟨hok, h⟩
                  subst h
                  exact Or.inr (Or.inr (Or.inr (Or.inr (Or.inr (Or.inr
                    (Or.inl ⟨_, rfl⟩))))))
                · rcases hrEv e h with h' | h' | h'
                  · exact Or.inr (Or.inr (Or.inr (Or.inr (Or.inr (Or.inr
                      (Or.inr h'))))))
                  · exact Or.inl h'
                  · exact Or.inr (Or.inl h')

theorem primary_step_redeemSubmit {cfg : Config} {needed bal : ℚ}
    {o : PrimaryOracle} {ot : OrderTy} {c : String} {a : ℚ}
    (h : Event.earnSubmit ot c a ∈ (primary_step cfg needed bal o).1) :
    ot = .redeem ∧ c = cfg.primary ∧
    ∃ r, 0 < r ∧ 0 < needed - bal ∧
      o.stakedFetch = .ok (some r) ∧
      a = round6 (min (max ((needed - bal) * BUFFER_MULTIPLIER)
        MIN_REDEMPTION_USD) r) := by
  obtain ⟨sf, sk, rr⟩ := o
  by_cases hc : 0 < needed - bal
  swap
  · simp [primary_step, hc] at h
  rcases hgb : get_coin_balance cfg.primary rr with ⟨rEv, b2⟩
  have hrEv : Event.earnSubmit ot c a ∈ rEv → False := by
    intro hx
    rcases get_coin_balance_mem (by rw [hgb]; exact hx) with h' | h' | h'
    · exact absurd h' (by simp)
    · rcases h' with ⟨t, ht⟩; exact absurd ht (by simp)
    · rcases h' with ⟨t, ht⟩; exact absurd ht (by simp)
  cases sf with
  | error u =>
      simp [primary_step, hc, hgb] at h
      rcases h with h | h
      · rcases catchEvents_mem h with h' | h' <;> rcases h' with ⟨t, ht⟩ <;>
          exact absurd ht (by simp)
      · exact absurd h hrEv
  | ok x =>
      cases x with
      | none =>
          simp [primary_step, hc, hgb] at h
          exact absurd h hrEv
      | some r =>
          by_cases hr : 0 < r
          swap
          · simp [primary_step, hc, hr, hgb] at h
            exact absurd h hrEv
          · rcases hsr : stake_or_redeem .redeem
                (min (max ((needed - bal) * BUFFER_MULTIPLIER) MIN_REDEMPTION_USD) r)
                cfg.primary sk with ⟨sEv, res⟩
            have hsub : Event.earnSubmit ot c a ∈ sEv →
                ot = .redeem ∧ c = cfg.primary ∧
                a = round6 (min (max ((needed - bal) * BUFFER_MULTIPLIER)
                  MIN_REDEMPTION_USD) r) :=
              fun hx => stake_or_redeem_earnSubmit (by rw [hsr]; exact hx)
            cases res with
            | error u =>
                simp [primary_step, hc, hr, hsr] at h
                obtain ⟨h1, h2, h3⟩ := hsub h
                exact ⟨h1, h2, r, hr, hc, rfl, h3⟩
            | ok okb =>
                simp [primary_step, hc, hr, hsr, hgb] at h
                rcases h with h | h
                · obtain ⟨h1, h2, h3⟩ := hsub h
                  exact ⟨h1, h2, r, hr, hc, rfl, h3⟩
                · exact absurd h hrEv

/-- The deficit `primary_step` reports: when the step actually ran
(initial deficit positive) it is recomputed from the balance re-read of
bybit_bot.py line 242; otherwise the inputs pass through. -/
theorem primary_step_result {cfg : Config} {needed bal : ℚ} {o : PrimaryOracle}
    {fb cover : ℚ}
    (h : (primary_step cfg needed bal o).2 = .ok (fb, cover)) :
    (0 < needed - bal → fb = balanceValue o.reRead ∧
      cover = needed - balanceValue o.reRead) ∧
    (¬ 0 < needed - bal → fb = bal ∧ cover = needed - bal) := by
  obtain ⟨sf, sk, rr⟩ := o
  by_cases hc : 0 < needed - bal
  swap
  · simp [primary_step, hc] at h
    exact ⟨fun hx => absurd hx hc, fun _ => ⟨h.1.symm, h.2.symm⟩⟩
  · refine ⟨fun _ => ?_, fun hx => absurd hc hx⟩
    rcases hgb : get_coin_balance cfg.primary rr with ⟨rEv, b2⟩
    have hb2 : b2 = balanceValue rr := by
      have := get_coin_balance_val cfg.primary rr
      rw [hgb] at this
      exact this
    cases sf with
    | error u =>
        simp [primary_step, hc, hgb] at h
        exact ⟨h.1.symm.trans hb2, by rw [← h.2, hb2]⟩
    | ok x =>
        cases x with
        | none =>
            simp [primary_step, hc, hgb] at h
            exact ⟨h.1.symm.trans hb2, by rw [← h.2, hb2]⟩
        | some r =>
            by_cases hr : 0 < r
            swap
            · simp [primary_step, hc, hr, hgb] at h
              exact ⟨h.1.symm.trans hb2, by rw [← h.2, hb2]⟩
            · rcases hsr : stake_or_redeem .redeem
                  (min (max ((needed - bal) * BUFFER_MULTIPLIER) MIN_REDEMPTION_USD) r)
                  cfg.primary sk with ⟨sEv, res⟩
              cases res with
              | error u => simp [primary_step, hc, hr, hsr] at h
              | ok okb =>
                  simp [primary_step, hc, hr, hsr, hgb] at h
                  exact ⟨h.1.symm.trans hb2, by rw [← h.2, hb2]⟩

/-- Shape of every event the secondary fallback loop can emit; in
particular every redemption it submits is for a non-primary coin, computed
by the buffered clamp against the redeemable value `r` actually returned by
that coin's staked-position query. -/
def SecEvShape (cfg : Config) (so : String → SecondaryOracle) (e : Event) : Prop :=
  (∃ t, e = Event.logMsg t) ∨ (∃ t, e = Event.telegram t) ∨
  e = Event.quoteConfirm ∨ (∃ x y u v, e = Event.convertDone x y u v) ∨
  (∃ s, e = Event.sleep s) ∨ (∃ cc, e = Event.queryBalance cc) ∨
  (∃ cc, cc ≠ cfg.primary ∧
    (e = Event.queryStaked cc ∨ (∃ r, e = Event.redeemableSeen cc r) ∨
     e = Event.queryEarnProduct cc ∨
     (∃ am, e = Event.quoteRequest cc cfg.primary am))) ∨
  (∃ cc am, cc ≠ cfg.primary ∧ e = Event.earnSubmit .redeem cc am ∧
    ∃ d r, 0 < d ∧ 0 < r ∧ (so cc).stakedFetch = Except.ok (some r) ∧
      am = round6 (min (max (d * BUFFER_MULTIPLIER) MIN_REDEMPTION_USD) r))

theorem secShape_log {cfg : Config} {so : String → SecondaryOracle} {t : MsgTag} :
    SecEvShape cfg so (Event.logMsg t) := Or.inl ⟨t, rfl⟩

theorem secShape_tg {cfg : Config} {so : String → SecondaryOracle} {t : MsgTag} :
    SecEvShape cfg so (Event.telegram t) := Or.inr (Or.inl ⟨t, rfl⟩)

theorem secShape_logtg {cfg : Config} {so : String → SecondaryOracle} {e : Event}
    (h : (∃ t, e = Event.logMsg t) ∨ (∃ t, e = Event.telegram t)) :
    SecEvShape cfg so e := by
  rcases h with ⟨t, ht⟩ | ⟨t, ht⟩
  · exact ht ▸ secShape_log
  · exact ht ▸ secShape_tg

theorem secShape_confirm {cfg : Config} {so : String → SecondaryOracle} :
    SecEvShape cfg so Event.quoteConfirm := Or.inr (Or.inr (Or.inl rfl))

theorem secShape_done {cfg : Config} {so : String → SecondaryOracle}
    {x y : String} {u v : ℚ} : SecEvShape cfg so (Event.convertDone x y u v) :=
  Or.inr (Or.inr (Or.inr (Or.inl ⟨x, y, u, v, rfl⟩)))

theorem secShape_sleep {cfg : Config} {so : String → SecondaryOracle} {s : ℚ} :
    SecEvShape cfg so (Event.sleep s) :=
  Or.inr (Or.inr (Or.inr (Or.inr (Or.inl ⟨s, rfl⟩))))

theorem secShape_qbal {cfg : Config} {so : String → SecondaryOracle} {cc : String} :
    SecEvShape cfg so (Event.queryBalance cc) :=
  Or.inr (Or.inr (Or.inr (Or.inr (Or.inr (Or.inl ⟨cc, rfl⟩)))))

theorem secShape_coin {cfg : Config} {so : String → SecondaryOracle} {cc : String}
    {e : Event} (hcc : cc ≠ cfg.primary)
    (h : e = Event.queryStaked cc ∨ (∃ r, e = Event.redeemableSeen cc r) ∨
      e = Event.queryEarnProduct cc ∨
      (∃ am, e = Event.quoteRequest cc cfg.primary am)) :
    SecEvShape cfg so e :=
  Or.inr (Or.inr (Or.inr (Or.inr (Or.inr (Or.inr (Or.inl ⟨cc, hcc, h⟩))))))

theorem secShape_submit {cfg : Config} {so : String → SecondaryOracle}
    {cc : String} {am d r : ℚ} (hcc : cc ≠ cfg.primary) (hd : 0 < d) (hr : 0 < r)
    (hsf : (so cc).stakedFetch = Except.ok (some r))
    (ham : am = round6 (min (max (d * BUFFER_MULTIPLIER) MIN_REDEMPTION_USD) r)) :
    SecEvShape cfg so (Event.earnSubmit .redeem cc am) :=
  Or.inr (Or.inr (Or.inr (Or.inr (Or.inr (Or.inr (Or.inr
    ⟨cc, am, hcc, rfl, d, r, hd, hr, hsf, ham⟩))))))

theorem secondary_loop_mem {cfg : Config} {needed : ℚ}
    {so : String → SecondaryOracle} {l : List String} :
    ∀ {fb cover : ℚ} {e : Event}, 0 < cover →
      e ∈ (secondary_loop cfg needed so fb cover l).1 → SecEvShape cfg so e := by
  induction l with
  | nil => intro fb cover e _ h; simp [secondary_loop] at h
  | cons c rest ih =>
      intro fb cover e hcover h
      by_cases hceq : c = cfg.primary
      · rw [secondary_loop, if_pos hceq] at h
        exact ih hcover h
      · rw [secondary_loop, if_neg hceq] at h
        cases hsf : (so c).stakedFetch with
        | error u =>
            rw [hsf] at h
            simp at h
            rcases h with h | h | h
            · exact h ▸ secShape_coin hceq (Or.inl rfl)
            · exact secShape_logtg (catchEvents_mem h)
            · exact ih hcover h
        | ok x =>
            cases x with
            | none =>
                rw [hsf] at h
                simp at h
                rcases h with h | h
                · exact h ▸ secShape_coin hceq (Or.inl rfl)
                · exact ih hcover h
            | some sr =>
                rw [hsf] at h
                by_cases hsr0 : 0 < sr
                swap
                · simp [hsr0] at h
                  rcases h with h | h | h
                  · exact h ▸ secShape_coin hceq (Or.inl rfl)
                  · exact h ▸ secShape_coin hceq (Or.inr (Or.inl ⟨sr, rfl⟩))
                  · exact ih hcover h
                · rcases hst : stake_or_redeem .redeem
                      (min (max (cover * BUFFER_MULTIPLIER) MIN_REDEMPTION_USD) sr)
                      c ((so c).stake) with ⟨sEv, sres⟩
                  have hsEv : ∀ x ∈ sEv, SecEvShape cfg so x := by
                    intro x hx
                    rcases stake_or_redeem_mem (by rw [hst]; exact hx) with
                      h' | h' | h' | h'
                    · exact h' ▸ secShape_coin hceq (Or.inr (Or.inr (Or.inl rfl)))
                    · exact h' ▸ secShape_submit hceq hcover hsr0 hsf rfl
                    · exact secShape_logtg (Or.inl h')
                    · exact secShape_logtg (Or.inr h')
                  cases sres with
                  | error u =>
                      simp [hsr0, hst] at h
                      rcases h with h | h | h | h | h
                      · exact h ▸ secShape_coin hceq (Or.inl rfl)
                      · exact h ▸ secShape_coin hceq (Or.inr (Or.inl ⟨sr, rfl⟩))
                      · exact h ▸ secShape_log
                      · exact h ▸ secShape_tg
                      · exact hsEv e h
                  | ok sok =>
                      cases sok with
                      | false =>
                          simp [hsr0, hst] at h
                          rcases h with h | h | h | h | h | h
                          · exact h ▸ secShape_coin hceq (Or.inl rfl)
                          · exact h ▸ secShape_coin hceq (Or.inr (Or.inl ⟨sr, rfl⟩))
                          · exact h ▸ secShape_log
                          · exact h ▸ secShape_tg
                          · exact hsEv e h
                          · exact ih hcover h
                      | true =>
                          rcases hub : get_coin_balance c ((so c).utaBal) with ⟨uEv, rb⟩
                          have huEv : ∀ x ∈ uEv, SecEvShape cfg so x := by
                            intro x hx
                            rcases get_coin_balance_mem (by rw [hub]; exact hx) with
                              h' | h'
                            · exact h' ▸ secShape_qbal
                            · exact secShape_logtg h'
                          rcases hcv : convert_coins c cfg.primary rb ((so c).convert)
                            with ⟨cnvEv, q⟩
                          have hcEv : ∀ x ∈ cnvEv, SecEvShape cfg so x := by
                            intro x hx
                            rcases convert_coins_mem (by rw [hcv]; exact hx) with
                              h' | h' | h' | h' | h'
                            · exact h' ▸ secShape_coin hceq
                                (Or.inr (Or.inr (Or.inr ⟨rb, rfl⟩)))
                            · exact h' ▸ secShape_confirm
                            · rcases h' with ⟨a1, a2, a3, a4, h'⟩
                              exact h' ▸ secShape_done
                            · exact secShape_logtg (Or.inl h')
                            · exact secShape_logtg (Or.inr h')
                          by_cases hq : 0 < q.toAmount
                          · rcases hre : get_coin_balance cfg.primary ((so c).reRead)
                              with ⟨rEv, fb2v⟩
                            have hrEv : ∀ x ∈ rEv, SecEvShape cfg so x := by
                              intro x hx
                              rcases get_coin_balance_mem (by rw [hre]; exact hx) with
                                h' | h'
                              · exact h' ▸ secShape_qbal
                              · exact secShape_logtg h'
                            by_cases hc2 : needed - fb2v ≤ 0
                            · simp [hsr0, hst, hub, hcv, hq, hre, hc2] at h
                              rcases h with h | h | h | h | h | h | h | h | h | h
                              · exact h ▸ secShape_coin hceq (Or.inl rfl)
                              · exact h ▸ secShape_coin hceq (Or.inr (Or.inl ⟨sr, rfl⟩))
                              · exact h ▸ secShape_log
                              · exact h ▸ secShape_tg
                              · exact hsEv e h
                              · exact h ▸ secShape_sleep
                              · exact huEv e h
                              · exact h ▸ secShape_log
                              · exact hcEv e h
                              · rcases h with h | h | h
                                · exact h ▸ secShape_log
                                · exact hrEv e h
                                · exact h ▸ secShape_log
                            · simp [hsr0, hst, hub, hcv, hq, hre, hc2] at h
                              rcases h with h | h | h | h | h | h | h | h | h | h
                              · exact h ▸ secShape_coin hceq (Or.inl rfl)
                              · exact h ▸ secShape_coin hceq (Or.inr (Or.inl ⟨sr, rfl⟩))
                              · exact h ▸ secShape_log
                              · exact h ▸ secShape_tg
                              · exact hsEv e h
                              · exact h ▸ secShape_sleep
                              · exact huEv e h
                              · exact h ▸ secShape_log
                              · exact hcEv e h
                              · rcases h with h | h | h | h
                                · exact h ▸ secShape_log
                                · exact hrEv e h
                                · exact h ▸ secShape_log
                                · exact ih (by linarith [lt_of_not_le hc2]) h
                          · simp [hsr0, hst, hub, hcv, hq] at h
                            rcases h with h | h | h | h | h | h | h | h | h | h
                            · exact h ▸ secShape_coin hceq (Or.inl rfl)
                            · exact h ▸ secShape_coin hceq (Or.inr (Or.inl ⟨sr, rfl⟩))
                            · exact h ▸ secShape_log
                            · exact h ▸ secShape_tg
                            · exact hsEv e h
                            · exact h ▸ secShape_sleep
                            · exact huEv e h
                            · exact h ▸ secShape_log
                            · exact hcEv e h
                            · rcases h with h | h
                              · exact h ▸ secShape_log
                              · exact ih hcover h

/-- Shape of the events the purchase loop can emit: notably its only Earn
submissions are stakes (never redemptions) and it performs no
staked-position query. -/
def PurEvShape (e : Event) : Prop :=
  (∃ t, e = Event.logMsg t) ∨ (∃ t, e = Event.telegram t) ∨
  (∃ f t a, e = Event.quoteRequest f t a) ∨ e = Event.quoteConfirm ∨
  (∃ x y u v, e = Event.convertDone x y u v) ∨
  (∃ s q p t, e = Event.tradeLog s q p t) ∨ (∃ c, e = Event.queryBalance c) ∨
  (∃ c, e = Event.queryEarnProduct c) ∨ (∃ c a, e = Event.earnSubmit .stake c a)

theorem purShape_log {t : MsgTag} : PurEvShape (Event.logMsg t) := Or.inl ⟨t, rfl⟩

theorem purShape_tg {t : MsgTag} : PurEvShape (Event.telegram t) :=
  Or.inr (Or.inl ⟨t, rfl⟩)

theorem purShape_logtg {e : Event}
    (h : (∃ t, e = Event.logMsg t) ∨ (∃ t, e = Event.telegram t)) : PurEvShape e := by
  rcases h with ⟨t, ht⟩ | ⟨t, ht⟩
  · exact ht ▸ purShape_log
  · exact ht ▸ purShape_tg

theorem purShape_conv {f t : String} {a : ℚ} {o : ConvertOracle} {e : Event}
    (h : e ∈ (convert_coins f t a o).1) : PurEvShape e := by
  rcases convert_coins_mem h with h' | h' | h' | h' | h'
  · exact h' ▸ Or.inr (Or.inr (Or.inl ⟨f, t, a, rfl⟩))
  · exact h' ▸ Or.inr (Or.inr (Or.inr (Or.inl rfl)))
  · rcases h' with ⟨x, y, u, v, h'⟩
    exact h' ▸ Or.inr (Or.inr (Or.inr (Or.inr (Or.inl ⟨x, y, u, v, rfl⟩))))
  · exact purShape_logtg (Or.inl h')
  · exact purShape_logtg (Or.inr h')

theorem purShape_bal {c : String} {b : BalanceOracle} {e : Event}
    (h : e ∈ (get_coin_balance c b).1) : PurEvShape e := by
  rcases get_coin_balance_mem h with h' | h'
  · exact h' ▸ Or.inr (Or.inr (Or.inr (Or.inr (Or.inr (Or.inr (Or.inl ⟨c, rfl⟩))))))
  · exact purShape_logtg h'

theorem purShape_stake {amt : ℚ} {c : String} {o : StakeOracle} {e : Event}
    (h : e ∈ (stake_or_redeem .stake amt c o).1) : PurEvShape e := by
  rcases stake_or_redeem_mem h with h' | h' | h' | h'
  · exact h' ▸ Or.inr (Or.inr (Or.inr (Or.inr (Or.inr (Or.inr (Or.inr
      (Or.inl ⟨c, rfl⟩)))))))
  · exact h' ▸ Or.inr (Or.inr (Or.inr (Or.inr (Or.inr (Or.inr (Or.inr (Or.inr
      ⟨c, _, rfl⟩)))))))
  · exact purShape_logtg (Or.inl h')
  · exact purShape_logtg (Or.inr h')

theorem purchase_loop_mem {cfg : Config} {po : String → PurchaseOracle}
    {l : List (String × ℚ)} :
    ∀ {bal : ℚ} {e : Event}, e ∈ (purchase_loop cfg po bal l).1 → PurEvShape e := by
  induction l with
  | nil => intro bal e h; simp [purchase_loop] at h
  | cons hd rest ih =>
      obtain ⟨symbol, m⟩ := hd
      intro bal e h
      by_cases hb : bal < m * cfg.daily
      · simp [purchase_loop, hb] at h
        rcases h with h | h | h
        · exact h ▸ purShape_log
        · exact h ▸ purShape_tg
        · exact ih h
      · rcases hcv : convert_coins cfg.primary symbol (m * cfg.daily)
            ((po symbol).convert) with ⟨cnvEv, q⟩
        rcases hpb : get_coin_balance symbol ((po symbol).postBal) with ⟨bEv, cb⟩
        have hcnv : ∀ x ∈ cnvEv, PurEvShape x := by
          intro x hx
          exact purShape_conv (f := cfg.primary) (t := symbol) (a := m * cfg.daily)
            (o := (po symbol).convert) (by rw [hcv]; exact hx)
        have hbEv : ∀ x ∈ bEv, PurEvShape x := by
          intro x hx
          exact purShape_bal (c := symbol) (b := (po symbol).postBal)
            (by rw [hpb]; exact hx)
        have htEv : ∀ x ∈ ((if 0 < q.toAmount then
            ([Event.tradeLog (q.toCoin ++ q.fromCoin) q.toAmount
                (if q.toAmount = 0 then 0 else q.fromAmount / q.toAmount)
                q.fromAmount], bal - q.fromAmount)
            else ([], bal)) : List Event × ℚ).1, PurEvShape x := by
          intro x hx
          split at hx
          · simp at hx
            exact hx ▸ Or.inr (Or.inr (Or.inr (Or.inr (Or.inr (Or.inl
              ⟨_, _, _, _, rfl⟩)))))
          · simp at hx
        by_cases hsol : symbol = "SOL" ∧ 1 / 10 ≤ cb
        · obtain ⟨hsol1, hsol2⟩ := hsol
          subst hsol1
          simp only [one_div] at hsol2
          rcases hsk : stake_or_redeem .stake cb "SOL" ((po "SOL").stake)
            with ⟨sEv, u | sok⟩
          · have hsEv : ∀ x ∈ sEv, PurEvShape x := by
              intro x hx
              exact @purShape_stake cb "SOL" ((po "SOL").stake) _
                (by rw [hsk]; exact hx)
            simp [purchase_loop, hb, hcv, hpb, hsol2, hsk] at h
            rcases h with h | h | h | h | h | h
            · exact h ▸ purShape_log
            · exact h ▸ purShape_tg
            · exact hcnv e h
            · exact htEv e h
            · exact hbEv e h
            · rcases h with h | h
              · exact h ▸ purShape_log
              · exact hsEv e h
          · have hsEv : ∀ x ∈ sEv, PurEvShape x := by
              intro x hx
              exact @purShape_stake cb "SOL" ((po "SOL").stake) _
                (by rw [hsk]; exact hx)
            simp [purchase_loop, hb, hcv, hpb, hsol2, hsk] at h
            rcases h with h | h | h | h | h | h
            · exact h ▸ purShape_log
            · exact h ▸ purShape_tg
            · exact hcnv e h
            · exact htEv e h
            · exact hbEv e h
            · rcases h with h | h | h
              · exact h ▸ purShape_log
              · exact hsEv e h
              · exact ih h
        · simp only [one_div] at hsol
          by_cases heth : symbol = "ETH" ∧ 1 / 100 ≤ cb
          · obtain ⟨heth1, heth2⟩ := heth
            subst heth1
            simp only [one_div] at heth2
            simp [purchase_loop, hb, hcv, hpb, hsol, heth2] at h
            rcases h with h | h | h | h | h | h
            · exact h ▸ purShape_log
            · exact h ▸ purShape_tg
            · exact hcnv e h
            · exact htEv e h
            · exact hbEv e h
            · rcases h with h | h
              · exact h ▸ purShape_tg
              · exact ih h
          · simp only [one_div] at heth
            simp [purchase_loop, hb, hcv, hpb, hsol, heth] at h
            rcases h with h | h | h | h | h | h
            · exact h ▸ purShape_log
            · exact h ▸ purShape_tg
            · exact hcnv e h
            · exact htEv e h
            · exact hbEv e h
            · exact ih h

/-! ## Claim C6: purchase-loop balance tracking -/

/-- The `total_usd` field contributed by a trade-ledger append (zero for
every other event). -/
def tradeAmt : Event → ℚ
  | .tradeLog _ _ _ total => total
  | _ => 0

/-- Total primary currency recorded as spent in a trace (sum of the
`total_usd` fields of its `TradeRecord` appends, which the purchase loop
sets to each quote's from-amount). -/
def tradedTotal (tr : List Event) : ℚ := (tr.map tradeAmt).sum

theorem tradedTotal_append (a b : List Event) :
    tradedTotal (a ++ b) = tradedTotal a + tradedTotal b := by
  simp [tradedTotal]

theorem tradedTotal_zero {tr : List Event} (h : ∀ e ∈ tr, tradeAmt e = 0) :
    tradedTotal tr = 0 := by
  unfold tradedTotal
  refine List.sum_eq_zero ?_
  intro x hx
  rcases List.mem_map.mp hx with ⟨e, he, rfl⟩
  exact h e he

theorem tradeAmt_convert {f t : String} {a : ℚ} {o : ConvertOracle} {e : Event}
    (h : e ∈ (convert_coins f t a o).1) : tradeAmt e = 0 := by
  rcases convert_coins_mem h with h' | h' | h' | h' | h'
  · simp [h', tradeAmt]
  · simp [h', tradeAmt]
  · rcases h' with ⟨x, y, u, v, h'⟩; simp [h', tradeAmt]
  · rcases h' with ⟨tg, h'⟩; simp [h', tradeAmt]
  · rcases h' with ⟨tg, h'⟩; simp [h', tradeAmt]

theorem tradeAmt_bal {c : String} {b : BalanceOracle} {e : Event}
    (h : e ∈ (get_coin_balance c b).1) : tradeAmt e = 0 := by
  rcases get_coin_balance_mem h with h' | h' | h'
  · simp [h', tradeAmt]
  · rcases h' with ⟨tg, h'⟩; simp [h', tradeAmt]
  · rcases h' with ⟨tg, h'⟩; simp [h', tradeAmt]

theorem tradeAmt_stake {ot : OrderTy} {amt : ℚ} {c : String} {o : StakeOracle}
    {e : Event} (h : e ∈ (stake_or_redeem ot amt c o).1) : tradeAmt e = 0 := by
  rcases stake_or_redeem_mem h with h' | h' | h' | h'
  · simp [h', tradeAmt]
  · simp [h', tradeAmt]
  · rcases h' with ⟨tg, h'⟩; simp [h', tradeAmt]
  · rcases h' with ⟨tg, h'⟩; simp [h', tradeAmt]

/-- Per-asset honesty of the convert oracle: a granted quote never spends
more of the primary currency than the requested amount (partial fills spend
less, never more). -/
def HonestQuotes (cfg : Config) (po : String → PurchaseOracle)
    (l : List (String × ℚ)) : Prop :=
  ∀ s m, (s, m) ∈ l → ∀ q, ((po s).convert).quote = Except.ok q →
    q.fromAmount ≤ m * cfg.daily

/-- The tracked balance the purchase loop ends with equals its initial
value minus the total recorded as spent in its own trade-ledger appends. -/
theorem purchase_loop_ledger {cfg : Config} {po : String → PurchaseOracle}
    {l : List (String × ℚ)} :
    ∀ {bal b : ℚ}, (purchase_loop cfg po bal l).2 = .ok b →
      b = bal - tradedTotal (purchase_loop cfg po bal l).1 := by
  induction l with
  | nil =>
      intro bal b h
      simp [purchase_loop] at h
      simp [purchase_loop, tradedTotal, h]
  | cons hd rest ih =>
      obtain ⟨symbol, m⟩ := hd
      intro bal b h
      rcases hrec0 : purchase_loop cfg po bal rest with ⟨recEv0, recRes0⟩
      by_cases hb : bal < m * cfg.daily
      · simp only [purchase_loop, if_pos hb, hrec0] at h ⊢
        have hihv := @ih bal b (by rw [hrec0]; exact h)
        rw [hrec0] at hihv
        simp only [tradedTotal, tradeAmt, List.map_cons, List.sum_cons] at hihv ⊢
        linarith
      · rcases hcv : convert_coins cfg.primary symbol (m * cfg.daily)
            ((po symbol).convert) with ⟨cnvEv, q⟩
        have hcnv0 : (cnvEv.map tradeAmt).sum = 0 := by
          have h0 := tradedTotal_zero fun e he =>
            tradeAmt_convert (f := cfg.primary) (t := symbol) (a := m * cfg.daily)
              (o := (po symbol).convert) (by rw [hcv]; exact he)
          rw [tradedTotal] at h0
          exact h0
        rcases hpb : get_coin_balance symbol ((po symbol).postBal) with ⟨bEv, cb⟩
        have hbEv0 : (bEv.map tradeAmt).sum = 0 := by
          have h0 := tradedTotal_zero fun e he =>
            tradeAmt_bal (c := symbol) (b := (po symbol).postBal)
              (by rw [hpb]; exact he)
          rw [tradedTotal] at h0
          exact h0
        rcases hrec1 : purchase_loop cfg po (bal - q.fromAmount) rest
          with ⟨recEv1, recRes1⟩
        by_cases hsol : symbol = "SOL" ∧ 1 / 10 ≤ cb
        · obtain ⟨hsol1, hsol2⟩ := hsol
          subst hsol1
          have hcondSol : ("SOL" = "SOL" ∧ 1 / 10 ≤ cb) := ⟨rfl, hsol2⟩
          rcases hsk : stake_or_redeem .stake cb "SOL" ((po "SOL").stake)
            with ⟨sEv, u | sok⟩
          · by_cases hq : 0 < q.toAmount
            · simp only [purchase_loop, if_neg hb, hcv, hpb, if_pos hq,
                hsk, hsol2, true_and, and_true, if_true] at h
              exact absurd h (by simp)
            · simp only [purchase_loop, if_neg hb, hcv, hpb, if_neg hq,
                hsk, hsol2, true_and, and_true, if_true] at h
              exact absurd h (by simp)
          · have hsEv0 : (sEv.map tradeAmt).sum = 0 := by
              have h0 := tradedTotal_zero fun e he =>
                @tradeAmt_stake .stake cb "SOL" ((po "SOL").stake) _
                  (by rw [hsk]; exact he)
              rw [tradedTotal] at h0
              exact h0
            by_cases hq : 0 < q.toAmount
            · simp only [purchase_loop, if_neg hb, hcv, hpb, if_pos hq,
                hsk, hrec1, hsol2, true_and, and_true, if_true] at h ⊢
              have hihv := @ih (bal - q.fromAmount) b
                (by rw [hrec1]; exact h)
              rw [hrec1] at hihv
              simp only [tradedTotal, tradeAmt, List.map_cons, List.sum_cons,
                List.map_append, List.sum_append, List.map_nil,
                List.sum_nil] at hihv ⊢
              rw [hcnv0, hbEv0, hsEv0]
              linarith
            · simp only [purchase_loop, if_neg hb, hcv, hpb, if_neg hq,
                hsk, hrec0, hsol2, true_and, and_true, if_true] at h ⊢
              have hihv := @ih bal b (by rw [hrec0]; exact h)
              rw [hrec0] at hihv
              simp only [tradedTotal, tradeAmt, List.map_cons, List.sum_cons,
                List.map_append, List.sum_append, List.map_nil,
                List.sum_nil] at hihv ⊢
              rw [hcnv0, hbEv0, hsEv0]
              linarith
        · by_cases heth : symbol = "ETH" ∧ 1 / 100 ≤ cb
          · obtain ⟨heth1, heth2⟩ := heth
            subst heth1
            have hcondEth : ("ETH" = "ETH" ∧ 1 / 100 ≤ cb) := ⟨rfl, heth2⟩
            by_cases hq : 0 < q.toAmount
            · simp only [purchase_loop, if_neg hb, hcv, hpb, if_pos hq,
                if_neg hsol, hrec1, heth2, true_and, and_true,
                if_true] at h ⊢
              have hihv := @ih (bal - q.fromAmount) b
                (by rw [hrec1]; exact h)
              rw [hrec1] at hihv
              simp only [tradedTotal, tradeAmt, List.map_cons, List.sum_cons,
                List.map_append, List.sum_append, List.map_nil,
                List.sum_nil] at hihv ⊢
              rw [hcnv0, hbEv0]
              linarith
            · simp only [purchase_loop, if_neg hb, hcv, hpb, if_neg hq,
                if_neg hsol, hrec0, heth2, true_and, and_true,
                if_true] at h ⊢
              have hihv := @ih bal b (by rw [hrec0]; exact h)
              rw [hrec0] at hihv
              simp only [tradedTotal, tradeAmt, List.map_cons, List.sum_cons,
                List.map_append, List.sum_append, List.map_nil,
                List.sum_nil] at hihv ⊢
              rw [hcnv0, hbEv0]
              linarith
          · by_cases hq : 0 < q.toAmount
            · simp only [purchase_loop, if_neg hb, hcv, hpb, if_pos hq,
                if_neg hsol, if_neg heth, hrec1] at h ⊢
              have hihv := @ih (bal - q.fromAmount) b
                (by rw [hrec1]; exact h)
              rw [hrec1] at hihv
              simp only [tradedTotal, tradeAmt, List.map_cons, List.sum_cons,
                List.map_append, List.sum_append, List.map_nil,
                List.sum_nil] at hihv ⊢
              rw [hcnv0, hbEv0]
              linarith
            · simp only [purchase_loop, if_neg hb, hcv, hpb, if_neg hq,
                if_neg hsol, if_neg heth, hrec0] at h ⊢
              have hihv := @ih bal b (by rw [hrec0]; exact h)
              rw [hrec0] at hihv
              simp only [tradedTotal, tradeAmt, List.map_cons, List.sum_cons,
                List.map_append, List.sum_append, List.map_nil,
                List.sum_nil] at hihv ⊢
              rw [hcnv0, hbEv0]
              linarith

/-- Result characterization for `convert_coins`: either the sentinel, or
the quote actually granted by the oracle. -/
theorem convert_coins_result {f t : String} {a : ℚ} {o : ConvertOracle} :
    (convert_coins f t a o).2 = sentinel f t ∨
    (∃ q, o.quote = .ok q ∧
      (convert_coins f t a o).2 = ⟨q.fromCoin, q.toCoin, q.fromAmount, q.toAmount⟩) := by
  obtain ⟨qo, cf⟩ := o
  by_cases hd : a < 1 / 100
  · left
    unfold convert_coins
    rw [if_pos hd]
  · unfold convert_coins
    rw [if_neg hd]
    cases qo with
    | error u => exact Or.inl rfl
    | ok q =>
        cases cf with
        | true => exact Or.inl rfl
        | false => exact Or.inr ⟨q, rfl, rfl⟩

theorem honest_tail {cfg : Config} {po : String → PurchaseOracle}
    {s : String} {m : ℚ} {rest : List (String × ℚ)}
    (h : HonestQuotes cfg po ((s, m) :: rest)) : HonestQuotes cfg po rest :=
  fun s' m' hm => h s' m' (List.mem_cons_of_mem _ hm)

/-- With honest quotes (each confirmed quote spends at most the requested
amount) and a nonnegative starting balance, the purchase loop's tracked
balance stays nonnegative. -/
theorem purchase_loop_nonneg {cfg : Config} {po : String → PurchaseOracle}
    {l : List (String × ℚ)} :
    ∀ {bal b : ℚ}, 0 ≤ bal → HonestQuotes cfg po l →
      (purchase_loop cfg po bal l).2 = .ok b → 0 ≤ b := by
  induction l with
  | nil =>
      intro bal b hbal _ h
      simp [purchase_loop] at h
      rw [← h]
      exact hbal
  | cons hd rest ih =>
      obtain ⟨symbol, m⟩ := hd
      intro bal b hbal hhon h
      rcases hrec0 : purchase_loop cfg po bal rest with ⟨recEv0, recRes0⟩
      by_cases hb : bal < m * cfg.daily
      · simp only [purchase_loop, if_pos hb, hrec0] at h
        exact ih hbal (honest_tail hhon) (by rw [hrec0]; exact h)
      · rcases hcv : convert_coins cfg.primary symbol (m * cfg.daily)
            ((po symbol).convert) with ⟨cnvEv, q⟩
        rcases hpb : get_coin_balance symbol ((po symbol).postBal) with ⟨bEv, cb⟩
        rcases hrec1 : purchase_loop cfg po (bal - q.fromAmount) rest
          with ⟨recEv1, recRes1⟩
        have hbal2 : ∀ hq : 0 < q.toAmount, 0 ≤ bal - q.fromAmount := by
          intro hq
          rcases convert_coins_result (f := cfg.primary) (t := symbol)
              (a := m * cfg.daily) (o := (po symbol).convert) with h' | ⟨q0, hok, h'⟩
          · rw [hcv] at h'
            simp only at h'
            rw [h'] at hq
            simp [sentinel] at hq
          · rw [hcv] at h'
            simp only at h'
            have hle : q.fromAmount ≤ m * cfg.daily := by
              rw [h']
              exact hhon symbol m (List.mem_cons_self _ _) q0 hok
            have := not_lt.mp hb
            linarith
        by_cases hsol : symbol = "SOL" ∧ 1 / 10 ≤ cb
        · obtain ⟨hsol1, hsol2⟩ := hsol
          subst hsol1
          rcases hsk : stake_or_redeem .stake cb "SOL" ((po "SOL").stake)
            with ⟨sEv, u | sok⟩
          · by_cases hq : 0 < q.toAmount
            · simp only [purchase_loop, if_neg hb, hcv, hpb, if_pos hq,
                hsk, hsol2, true_and, and_true, if_true] at h
              exact absurd h (by simp)
            · simp only [purchase_loop, if_neg hb, hcv, hpb, if_neg hq,
                hsk, hsol2, true_and, and_true, if_true] at h
              exact absurd h (by simp)
          · by_cases hq : 0 < q.toAmount
            · simp only [purchase_loop, if_neg hb, hcv, hpb, if_pos hq,
                hsk, hrec1, hsol2, true_and, and_true, if_true] at h
              exact ih (hbal2 hq) (honest_tail hhon) (by rw [hrec1]; exact h)
            · simp only [purchase_loop, if_neg hb, hcv, hpb, if_neg hq,
                hsk, hrec0, hsol2, true_and, and_true, if_true] at h
              exact ih hbal (honest_tail hhon) (by rw [hrec0]; exact h)
        · by_cases heth : symbol = "ETH" ∧ 1 / 100 ≤ cb
          · obtain ⟨heth1, heth2⟩ := heth
            subst heth1
            by_cases hq : 0 < q.toAmount
            · simp only [purchase_loop, if_neg hb, hcv, hpb, if_pos hq,
                if_neg hsol, hrec1, heth2, true_and, and_true, if_true] at h
              exact ih (hbal2 hq) (honest_tail hhon) (by rw [hrec1]; exact h)
            · simp only [purchase_loop, if_neg hb, hcv, hpb, if_neg hq,
                if_neg hsol, hrec0, heth2, true_and, and_true, if_true] at h
              exact ih hbal (honest_tail hhon) (by rw [hrec0]; exact h)
          · by_cases hq : 0 < q.toAmount
            · simp only [purchase_loop, if_neg hb, hcv, hpb, if_pos hq,
                if_neg hsol, if_neg heth, hrec1] at h
              exact ih (hbal2 hq) (honest_tail hhon) (by rw [hrec1]; exact h)
            · simp only [purchase_loop, if_neg hb, hcv, hpb, if_neg hq,
                if_neg hsol, if_neg heth, hrec0] at h
              exact ih hbal (honest_tail hhon) (by rw [hrec0]; exact h)

/-- Purchase oracle whose granted quote spends 100 primary units although
only 10 were requested (a dishonest from-amount). -/
def c6po : String → PurchaseOracle := fun _ =>
  { convert := { quote := .ok ⟨"USDT", "BTC", 100, 1⟩, confirmFails := false }
  , postBal := ⟨.ok none⟩
  , stake := ⟨.ok none, .ok 0⟩ }

/-- Purchase oracle whose granted quote spends exactly the requested 10. -/
def c6po2 : String → PurchaseOracle := fun _ =>
  { convert := { quote := .ok ⟨"USDT", "BTC", 10, 1⟩, confirmFails := false }
  , postBal := ⟨.ok none⟩
  , stake := ⟨.ok none, .ok 0⟩ }

/-- Configuration used for the purchase-loop scenarios. -/
def c6cfg : Config := { daily := 10, stables := ["USDT"], allocString := "" }

/-- C6, counterexample: the tracked remaining balance CAN go negative.
The loop decrements by the quote's from-amount as the exchange reports it;
when a confirmed quote reports having spent more than the requested amount
(here 100 against a request of 10 from a tracked balance of 10), the
tracked balance ends at -90. -/
theorem c6_counterexample :
    (purchase_loop c6cfg c6po 10 [("BTC", 1)]).2 = .ok (-90) ∧ (-90 : ℚ) < 0 :=
  ⟨by with_unfolding_all decide, by norm_num⟩

/-- C6 (amended): in the purchase loop, (1) an asset whose buy amount
exceeds the tracked balance is skipped with the balance unchanged, so a
conversion is only requested when the tracked balance covers the buy
amount; (2) the final tracked balance is the initial one minus exactly the
total recorded as spent (each trade record's total being the quote's
from-amount); and (3) provided every confirmed quote's from-amount is at
most the requested amount, a nonnegative tracked balance never goes
negative. -/
theorem c6_purchase_invariants_amended (cfg : Config)
    (po : String → PurchaseOracle) (bal : ℚ) (l : List (String × ℚ)) :
    (∀ s m rest, bal < m * cfg.daily →
      purchase_loop cfg po bal ((s, m) :: rest) =
        (Event.logMsg .notEnoughForSymbol :: Event.telegram .notEnoughForSymbol ::
          (purchase_loop cfg po bal rest).1, (purchase_loop cfg po bal rest).2)) ∧
    (∀ b, (purchase_loop cfg po bal l).2 = .ok b →
      b = bal - tradedTotal (purchase_loop cfg po bal l).1) ∧
    (0 ≤ bal → HonestQuotes cfg po l →
      ∀ b, (purchase_loop cfg po bal l).2 = .ok b → 0 ≤ b) := by
  refine ⟨fun s m rest hskip => ?_, fun b hb => purchase_loop_ledger hb,
    fun h0 hhon b hb => purchase_loop_nonneg h0 hhon hb⟩
  rcases hr : purchase_loop cfg po bal rest with ⟨ev, r⟩
  simp [purchase_loop, hskip, hr]

/-- C6 witness: the amended theorem applied to an honest one-asset
scenario; the tracked balance ends at 0, which is nonnegative. -/
theorem c6_witness :
    ((0 : ℚ) ≤ 10) ∧ HonestQuotes c6cfg c6po2 [("BTC", 1)] ∧
    (purchase_loop c6cfg c6po2 10 [("BTC", 1)]).2 = .ok 0 ∧ ((0 : ℚ) ≤ 0) := by
  have hhon : HonestQuotes c6cfg c6po2 [("BTC", 1)] := by
    intro s m hm q hq
    simp at hm
    obtain ⟨hs, hm'⟩ := hm
    subst hs
    subst hm'
    simp [c6po2] at hq
    subst hq
    norm_num [c6cfg]
  have hres : (purchase_loop c6cfg c6po2 10 [("BTC", 1)]).2 = .ok 0 := by
    with_unfolding_all decide
  exact ⟨by norm_num, hhon, hres,
    (c6_purchase_invariants_amended c6cfg c6po2 10 [("BTC", 1)]).2.2 (by norm_num)
      hhon 0 hres⟩

/-! ## Composition lemmas for the funding phase and the full run -/

theorem funding_phase_mem {cfg : Config} {needed : ℚ} {o : RunOracle} {e : Event}
    (h : e ∈ (funding_phase cfg needed o).1) :
    (∃ t, e = Event.logMsg t) ∨ (∃ t, e = Event.telegram t) ∨
    e = Event.queryBalance cfg.primary ∨
    e ∈ (primary_step cfg needed (balanceValue o.initialBal) o.primaryStep).1 ∨
    ∃ fb cover, 0 < cover ∧
      (primary_step cfg needed (balanceValue o.initialBal) o.primaryStep).2 =
        .ok (fb, cover) ∧
      e ∈ (secondary_loop cfg needed o.secondary fb cover cfg.stables).1 := by
  rcases hgb : get_coin_balance cfg.primary o.initialBal with ⟨bEv, bal⟩
  have hbal : bal = balanceValue o.initialBal := by
    have h0 := get_coin_balance_val cfg.primary o.initialBal
    rw [hgb] at h0
    exact h0
  have hbEv : ∀ x ∈ bEv, x = Event.queryBalance cfg.primary ∨
      (∃ t, x = Event.logMsg t) ∨ (∃ t, x = Event.telegram t) := by
    intro x hx
    exact get_coin_balance_mem (by rw [hgb]; exact hx)
  rcases hps : primary_step cfg needed bal o.primaryStep
    with ⟨pEv, u | ⟨fb, cover⟩⟩
  · simp only [funding_phase, hgb, hps] at h
    simp at h
    rcases h with h | h | h
    · rcases hbEv e h with h' | h' | h'
      · exact Or.inr (Or.inr (Or.inl h'))
      · exact Or.inl h'
      · exact Or.inr (Or.inl h')
    · exact Or.inl ⟨_, h⟩
    · rw [hbal] at hps
      exact Or.inr (Or.inr (Or.inr (Or.inl (by rw [hps]; exact h))))
  · by_cases hcov : 0 < cover
    · rcases hsl : secondary_loop cfg needed o.secondary fb cover cfg.stables
        with ⟨sEv, sr⟩
      have hsEv : ∀ x ∈ sEv,
          x ∈ (secondary_loop cfg needed o.secondary fb cover cfg.stables).1 := by
        intro x hx
        rw [hsl]
        exact hx
      cases sr with
      | error u =>
          simp only [funding_phase, hgb, hps, if_pos hcov, hsl] at h
          simp at h
          rcases h with h | h | h | h | h
          · rcases hbEv e h with h' | h' | h'
            · exact Or.inr (Or.inr (Or.inl h'))
            · exact Or.inl h'
            · exact Or.inr (Or.inl h')
          · exact Or.inl ⟨_, h⟩
          · rw [hbal] at hps
            exact Or.inr (Or.inr (Or.inr (Or.inl (by rw [hps]; exact h))))
          · exact Or.inl ⟨_, h⟩
          · rw [hbal] at hps
            exact Or.inr (Or.inr (Or.inr (Or.inr ⟨fb, cover, hcov,
              by rw [hps], hsEv e h⟩)))
      | ok p =>
          obtain ⟨fb2, cov2⟩ := p
          simp only [funding_phase, hgb, hps, if_pos hcov, hsl] at h
          simp at h
          rcases h with h | h | h | h | h
          · rcases hbEv e h with h' | h' | h'
            · exact Or.inr (Or.inr (Or.inl h'))
            · exact Or.inl h'
            · exact Or.inr (Or.inl h')
          · exact Or.inl ⟨_, h⟩
          · rw [hbal] at hps
            exact Or.inr (Or.inr (Or.inr (Or.inl (by rw [hps]; exact h))))
          · exact Or.inl ⟨_, h⟩
          · rw [hbal] at hps
            exact Or.inr (Or.inr (Or.inr (Or.inr ⟨fb, cover, hcov,
              by rw [hps], hsEv e h⟩)))
    · simp only [funding_phase, hgb, hps, if_neg hcov] at h
      simp at h
      rcases h with h | h | h
      · rcases hbEv e h with h' | h' | h'
        · exact Or.inr (Or.inr (Or.inl h'))
        · exact Or.inl h'
        · exact Or.inr (Or.inl h')
      · exact Or.inl ⟨_, h⟩
      · rw [hbal] at hps
        exact Or.inr (Or.inr (Or.inr (Or.inl (by rw [hps]; exact h))))

theorem run_dca_bot_mem {cfg : Config} {pf : String → Option ℚ} {o : RunOracle}
    {e : Event} (h : e ∈ (run_dca_bot cfg pf o).1) :
    (∃ t, e = Event.logMsg t) ∨ (∃ t, e = Event.telegram t) ∨
    e = Event.queryBalance cfg.primary ∨
    e ∈ (funding_phase cfg (requiredBudget cfg pf) o).1 ∨
    ∃ bal, e ∈ (purchase_loop cfg o.purchase bal
      (get_crypto_allocation pf cfg.allocString).2).1 := by
  rcases hal : get_crypto_allocation pf cfg.allocString with ⟨aEv, alloc⟩
  have haEv : ∀ x ∈ aEv, (∃ t, x = Event.logMsg t) ∨ (∃ t, x = Event.telegram t) := by
    intro x hx
    exact get_crypto_allocation_mem (by rw [hal]; exact hx)
  have hbudget : requiredBudget cfg pf = allocTotal alloc * cfg.daily := by
    rw [requiredBudget, hal]
  by_cases hempty : alloc = []
  · simp only [run_dca_bot, hal, if_pos hempty] at h
    simp at h
    rcases h with h | h | h
    · exact Or.inl ⟨_, h⟩
    · exact Or.inr (Or.inl ⟨_, h⟩)
    · rcases haEv e h with h' | h'
      · exact Or.inl h'
      · exact Or.inr (Or.inl h')
  · rcases hfp : funding_phase cfg (allocTotal alloc * cfg.daily) o
      with ⟨fEv, u | fb⟩
    · simp only [run_dca_bot, hal, if_neg hempty, hfp] at h
      simp at h
      rcases h with h | h | h | h
      · exact Or.inl ⟨_, h⟩
      · exact Or.inr (Or.inl ⟨_, h⟩)
      · rcases haEv e h with h' | h'
        · exact Or.inl h'
        · exact Or.inr (Or.inl h')
      · rw [← hbudget] at hfp
        exact Or.inr (Or.inr (Or.inr (Or.inl (by rw [hfp]; exact h))))
    · rcases hb4 : get_coin_balance cfg.primary o.finalBal with ⟨b4Ev, b4⟩
      have hb4Ev : ∀ x ∈ b4Ev, x = Event.queryBalance cfg.primary ∨
          (∃ t, x = Event.logMsg t) ∨ (∃ t, x = Event.telegram t) := by
        intro x hx
        exact get_coin_balance_mem (by rw [hb4]; exact hx)
      by_cases habort : b4 < allocTotal alloc * cfg.daily
      · simp only [run_dca_bot, hal, if_neg hempty, hfp, hb4, if_pos habort] at h
        simp at h
        rcases h with h | h | h | h | h | h | h
        · exact Or.inl ⟨_, h⟩
        · exact Or.inr (Or.inl ⟨_, h⟩)
        · rcases haEv e h with h' | h'
          · exact Or.inl h'
          · exact Or.inr (Or.inl h')
        · rw [← hbudget] at hfp
          exact Or.inr (Or.inr (Or.inr (Or.inl (by rw [hfp]; exact h))))
        · rcases hb4Ev e h with h' | h' | h'
          · exact Or.inr (Or.inr (Or.inl h'))
          · exact Or.inl h'
          · exact Or.inr (Or.inl h')
        · exact Or.inl ⟨_, h⟩
        · exact Or.inr (Or.inl ⟨_, h⟩)
      · rcases hpl : purchase_loop cfg o.purchase b4 alloc with ⟨uEv, ur⟩
        have huEv : ∀ x ∈ uEv,
            x ∈ (purchase_loop cfg o.purchase b4 alloc).1 := by
          intro x hx
          rw [hpl]
          exact hx
        cases ur with
        | error u =>
            simp only [run_dca_bot, hal, if_neg hempty, hfp, hb4, if_neg habort,
              hpl] at h
            simp at h
            rcases h with h | h | h | h | h | h
            · exact Or.inl ⟨_, h⟩
            · exact Or.inr (Or.inl ⟨_, h⟩)
            · rcases haEv e h with h' | h'
              · exact Or.inl h'
              · exact Or.inr (Or.inl h')
            · rw [← hbudget] at hfp
              exact Or.inr (Or.inr (Or.inr (Or.inl (by rw [hfp]; exact h))))
            · rcases hb4Ev e h with h' | h' | h'
              · exact Or.inr (Or.inr (Or.inl h'))
              · exact Or.inl h'
              · exact Or.inr (Or.inl h')
            · exact Or.inr (Or.inr (Or.inr (Or.inr ⟨b4, huEv e h⟩)))
        | ok v =>
            simp only [run_dca_bot, hal, if_neg hempty, hfp, hb4, if_neg habort,
              hpl] at h
            simp at h
            rcases h with h | h | h | h | h | h
            · exact Or.inl ⟨_, h⟩
            · exact Or.inr (Or.inl ⟨_, h⟩)
            · rcases haEv e h with h' | h'
              · exact Or.inl h'
              · exact Or.inr (Or.inl h')
            · rw [← hbudget] at hfp
              exact Or.inr (Or.inr (Or.inr (Or.inl (by rw [hfp]; exact h))))
            · rcases hb4Ev e h with h' | h' | h'
              · exact Or.inr (Or.inr (Or.inl h'))
              · exact Or.inl h'
              · exact Or.inr (Or.inl h')
            · exact Or.inr (Or.inr (Or.inr (Or.inr ⟨b4, huEv e h⟩)))

/-! ## Claim C1: the redemption clamp -/

/-- Configuration for the concrete funding scenarios (daily spend 13,
stablecoin preference USDT then USDC, one-asset plan). -/
def c1cfg : Config := { daily := 13, stables := ["USDT", "USDC"], allocString := "BTC:1.0" }

/-- `float()` oracle for the scenario's allocation string. -/
def c1pf : String → Option ℚ := fun s => if s = "1.0" then some 1 else none

/-- Run oracle: wallet holds 1 USDT against a 13 USDT budget, flexible
saving holds only 5 redeemable USDT (below `MIN_REDEMPTION_USD`), the
redemption submit succeeds, and everything afterwards is empty, so the run
aborts at the final check. -/
def c1o : RunOracle :=
  { initialBal := ⟨.ok (some 1)⟩
  , primaryStep :=
    { stakedFetch := .ok (some 5)
    , stake := ⟨.ok (some ()), .ok 0⟩
    , reRead := ⟨.ok (some 0)⟩ }
  , secondary := fun _ =>
    { stakedFetch := .ok none
    , stake := ⟨.ok none, .ok 1⟩
    , utaBal := ⟨.ok none⟩
    , convert := ⟨.error (), false⟩
    , reRead := ⟨.ok none⟩ }
  , finalBal := ⟨.ok (some 0)⟩
  , purchase := fun _ =>
    { convert := ⟨.error (), false⟩
    , postBal := ⟨.ok none⟩
    , stake := ⟨.ok none, .ok 1⟩ } }

/-- C1, counterexample: with a queried redeemable balance of 5 (positive
but below `MIN_REDEMPTION_USD = 10`), the resolver submits a redemption of
5, i.e. BELOW the minimum: the claim's lower bound `amount ≥ MIN` fails
whenever the redeemable balance is below the minimum. -/
theorem c1_counterexample :
    Event.earnSubmit .redeem "USDT" 5 ∈ (run_dca_bot c1cfg c1pf c1o).1 ∧
    Event.redeemableSeen "USDT" 5 ∈ (run_dca_bot c1cfg c1pf c1o).1 ∧
    (5 : ℚ) < MIN_REDEMPTION_USD := by
  refine ⟨?_, ?_, ?_⟩ <;> with_unfolding_all decide

/-- C1 (amended): every redemption the resolver submits is for the rounded
clamp `round6 (min (max (deficit * BUFFER) MIN) redeemable)` against a
positive deficit `d` and the positive redeemable balance `r` actually
returned by the corresponding staked-position query (for the primary coin,
`d` is exactly budget minus the initial balance read).  Consequently the
amount is at most `round6 r`, at least `MIN_REDEMPTION_USD` whenever
`r ≥ MIN_REDEMPTION_USD` (but possibly below it otherwise), and equals the
rounded unclamped value `round6 (max (d * BUFFER) MIN)` whenever that value
fits under `r`. -/
theorem c1_redeem_clamp_amended (cfg : Config) (pf : String → Option ℚ)
    (o : RunOracle) (c : String) (a : ℚ)
    (h : Event.earnSubmit .redeem c a ∈ (run_dca_bot cfg pf o).1) :
    ∃ d r, 0 < d ∧ 0 < r ∧
      ((c = cfg.primary ∧ o.primaryStep.stakedFetch = .ok (some r) ∧
        d = requiredBudget cfg pf - balanceValue o.initialBal) ∨
       (c ≠ cfg.primary ∧ (o.secondary c).stakedFetch = .ok (some r))) ∧
      a = round6 (min (max (d * BUFFER_MULTIPLIER) MIN_REDEMPTION_USD) r) ∧
      a ≤ round6 r ∧
      (MIN_REDEMPTION_USD ≤ r → MIN_REDEMPTION_USD ≤ a) ∧
      (max (d * BUFFER_MULTIPLIER) MIN_REDEMPTION_USD ≤ r →
        a = round6 (max (d * BUFFER_MULTIPLIER) MIN_REDEMPTION_USD)) := by
  rcases run_dca_bot_mem h with h' | h' | h' | h' | ⟨bal, h'⟩
  · rcases h' with ⟨t, ht⟩; exact absurd ht (by simp)
  · rcases h' with ⟨t, ht⟩; exact absurd ht (by simp)
  · exact absurd h' (by simp)
  · rcases funding_phase_mem h' with h2 | h2 | h2 | h2 | ⟨fb, cover, hcov, hpsr, h2⟩
    · rcases h2 with ⟨t, ht⟩; exact absurd ht (by simp)
    · rcases h2 with ⟨t, ht⟩; exact absurd ht (by simp)
    · exact absurd h2 (by simp)
    · obtain ⟨-, hc, r, hr, hd, hsf, ha⟩ := primary_step_redeemSubmit h2
      obtain ⟨hq1, hq2, hq3⟩ :=
        clamp_spec (requiredBudget cfg pf - balanceValue o.initialBal) r
      subst hc
      refine ⟨requiredBudget cfg pf - balanceValue o.initialBal, r, hd, hr,
        Or.inl ⟨rfl, hsf, rfl⟩, ha, ?_, ?_, ?_⟩
      · rw [ha]; exact hq1
      · intro hmr; rw [ha]; exact hq2 hmr
      · intro hmr; rw [ha]; exact hq3 hmr
    · rcases secondary_loop_mem hcov h2 with
        h3 | h3 | h3 | h3 | h3 | h3 | ⟨cc, hcc, h3⟩ |
        ⟨cc, am, hcc, heq, d, r, hd, hr, hsf, ham⟩
      · rcases h3 with ⟨t, ht⟩; exact absurd ht (by simp)
      · rcases h3 with ⟨t, ht⟩; exact absurd ht (by simp)
      · exact absurd h3 (by simp)
      · rcases h3 with ⟨x, y, u, v, ht⟩; exact absurd ht (by simp)
      · rcases h3 with ⟨s, ht⟩; exact absurd ht (by simp)
      · rcases h3 with ⟨s, ht⟩; exact absurd ht (by simp)
      · rcases h3 with h3 | h3 | h3 | h3
        · exact absurd h3 (by simp)
        · rcases h3 with ⟨r, ht⟩; exact absurd ht (by simp)
        · exact absurd h3 (by simp)
        · rcases h3 with ⟨am, ht⟩; exact absurd ht (by simp)
      · injection heq with hot hcoin hamt
        subst hcoin
        subst hamt
        obtain ⟨hq1, hq2, hq3⟩ := clamp_spec d r
        refine ⟨d, r, hd, hr, Or.inr ⟨hcc, hsf⟩, ham, ?_, ?_, ?_⟩
        · rw [ham]; exact hq1
        · intro hmr; rw [ham]; exact hq2 hmr
        · intro hmr; rw [ham]; exact hq3 hmr
  · rcases purchase_loop_mem h' with
      h3 | h3 | h3 | h3 | h3 | h3 | h3 | h3 | ⟨c', a', heq⟩
    · rcases h3 with ⟨t, ht⟩; exact absurd ht (by simp)
    · rcases h3 with ⟨t, ht⟩; exact absurd ht (by simp)
    · rcases h3 with ⟨f, t, a2, ht⟩; exact absurd ht (by simp)
    · exact absurd h3 (by simp)
    · rcases h3 with ⟨x, y, u, v, ht⟩; exact absurd ht (by simp)
    · rcases h3 with ⟨s, q, p, t, ht⟩; exact absurd ht (by simp)
    · rcases h3 with ⟨cc, ht⟩; exact absurd ht (by simp)
    · rcases h3 with ⟨cc, ht⟩; exact absurd ht (by simp)
    · injection heq with hot hcoin hamt
      exact absurd hot (by simp)

/-- C1 witness: the amended theorem applied to the concrete scenario; the
below-minimum submission of 5 is exactly the clamp value against a
redeemable balance of 5. -/
theorem c1_witness :
    Event.earnSubmit .redeem "USDT" 5 ∈ (run_dca_bot c1cfg c1pf c1o).1 ∧
    ∃ d r, 0 < d ∧ 0 < r ∧
      (("USDT" = c1cfg.primary ∧ c1o.primaryStep.stakedFetch = .ok (some r) ∧
        d = requiredBudget c1cfg c1pf - balanceValue c1o.initialBal) ∨
       ("USDT" ≠ c1cfg.primary ∧ (c1o.secondary "USDT").stakedFetch = .ok (some r))) ∧
      (5 : ℚ) = round6 (min (max (d * BUFFER_MULTIPLIER) MIN_REDEMPTION_USD) r) ∧
      (5 : ℚ) ≤ round6 r ∧
      (MIN_REDEMPTION_USD ≤ r → MIN_REDEMPTION_USD ≤ (5 : ℚ)) ∧
      (max (d * BUFFER_MULTIPLIER) MIN_REDEMPTION_USD ≤ r →
        (5 : ℚ) = round6 (max (d * BUFFER_MULTIPLIER) MIN_REDEMPTION_USD)) :=
  ⟨by with_unfolding_all decide,
   c1_redeem_clamp_amended c1cfg c1pf c1o "USDT" 5 (by with_unfolding_all decide)⟩

/-! ## Binance helper lemmas -/

theorem get_usdc_balance_val (o : BinOracle) :
    (get_usdc_balance o).2 = binBalanceValue o := by
  unfold get_usdc_balance binBalanceValue
  rcases o.balance with u | v
  · rfl
  · cases v <;> rfl

theorem get_usdc_balance_mem {o : BinOracle} {e : Event}
    (h : e ∈ (get_usdc_balance o).1) :
    e = Event.queryBalance "USDC" ∨ (∃ t, e = Event.logMsg t) ∨
      (∃ t, e = Event.telegram t) := by
  unfold get_usdc_balance at h
  rcases ho : o.balance with u | v
  · rw [ho] at h
    simp at h
    rcases h with h | h
    · exact Or.inl h
    · rcases catchEvents_mem h with h' | h'
      · exact Or.inr (Or.inl h')
      · exact Or.inr (Or.inr h')
  · rw [ho] at h
    cases v <;> simp at h <;> exact Or.inl h

theorem subscribe_mem {asset : String} {amount : ℚ} {s : Except Unit Bool}
    {e : Event} (h : e ∈ subscribe_to_flexible_savings asset amount s) :
    e = Event.binSubscribeCall asset amount ∨ (∃ t, e = Event.logMsg t) ∨
      (∃ t, e = Event.telegram t) := by
  unfold subscribe_to_flexible_savings at h
  rcases s with u | b
  · simp at h
    rcases h with h | h
    · exact Or.inl h
    · rcases catchEvents_mem h with h' | h'
      · exact Or.inr (Or.inl h')
      · exact Or.inr (Or.inr h')
  · cases b <;> simp at h <;>
      rcases h with h | h | h
    · exact Or.inl h
    · exact Or.inr (Or.inl ⟨_, h⟩)
    · exact Or.inr (Or.inr ⟨_, h⟩)
    · exact Or.inl h
    · exact Or.inr (Or.inl ⟨_, h⟩)
    · exact Or.inr (Or.inr ⟨_, h⟩)

theorem buy_crypto_mem {symbol : String} {amount : ℚ} {o : BinBuyOracle}
    {e : Event} (h : e ∈ buy_crypto symbol amount o) :
    e = Event.buyOrder symbol amount ∨
      (∃ q p, e = Event.tradeLog symbol q p amount) ∨
      (∃ x y, e = Event.binSubscribeCall x y) ∨
      (∃ t, e = Event.logMsg t) ∨ (∃ t, e = Event.telegram t) := by
  unfold buy_crypto at h
  rcases ho : o.order with u | ⟨qty, price⟩
  · rw [ho] at h
    simp at h
    rcases h with h | h
    · exact Or.inl h
    · rcases catchEvents_mem h with h' | h'
      · exact Or.inr (Or.inr (Or.inr (Or.inl h')))
      · exact Or.inr (Or.inr (Or.inr (Or.inr h')))
  · rw [ho] at h
    simp at h
    rcases h with h | h | h | h | h
    · exact Or.inl h
    · exact Or.inr (Or.inl ⟨_, _, h⟩)
    · exact Or.inr (Or.inr (Or.inr (Or.inl ⟨_, h⟩)))
    · exact Or.inr (Or.inr (Or.inr (Or.inr ⟨_, h⟩)))
    · rcases subscribe_mem h with h' | h' | h'
      · exact Or.inr (Or.inr (Or.inl ⟨_, _, h'⟩))
      · exact Or.inr (Or.inr (Or.inr (Or.inl h')))
      · exact Or.inr (Or.inr (Or.inr (Or.inr h')))

/-! ## Claim C4: early exit when the initial balance covers the budget -/

/-- C4: if the initial primary-balance read already covers the required
budget, the funding phase performs no Earn submission, no product lookup
and no conversion request; likewise the binance variant submits no
redemption when the initial spot balance covers its requirement. -/
theorem c4_early_exit_no_calls (cfg : Config) (needed : ℚ) (o : RunOracle)
    (bo : BinOracle) :
    (needed ≤ balanceValue o.initialBal →
      (∀ ot c a, Event.earnSubmit ot c a ∉ (funding_phase cfg needed o).1) ∧
      (∀ c, Event.queryEarnProduct c ∉ (funding_phase cfg needed o).1) ∧
      (∀ f t a, Event.quoteRequest f t a ∉ (funding_phase cfg needed o).1)) ∧
    (MIN_REQUIRED_BALANCE ≤ binBalanceValue bo →
      ∀ a, Event.binRedeem a ∉ (daily_dca bo).1) := by
  constructor
  · intro hbal
    rcases hgb : get_coin_balance cfg.primary o.initialBal with ⟨bEv, bal⟩
    have hval : bal = balanceValue o.initialBal := by
      have h0 := get_coin_balance_val cfg.primary o.initialBal
      rw [hgb] at h0
      exact h0
    have hc : ¬ 0 < needed - bal := by rw [hval]; linarith
    have hps : primary_step cfg needed bal o.primaryStep =
        ([], .ok (bal, needed - bal)) := by
      simp [primary_step, hc]
    have hfund : (funding_phase cfg needed o).1 =
        bEv ++ [Event.logMsg .availableBalance] := by
      simp [funding_phase, hgb, hps, hc]
    have hbEv : ∀ x ∈ bEv, x = Event.queryBalance cfg.primary ∨
        (∃ t, x = Event.logMsg t) ∨ (∃ t, x = Event.telegram t) := by
      intro x hx
      exact get_coin_balance_mem (by rw [hgb]; exact hx)
    refine ⟨fun ot c a hm => ?_, fun c hm => ?_, fun f t a hm => ?_⟩
    · rw [hfund] at hm
      simp at hm
      rcases hbEv _ hm with h' | h' | h'
      · exact absurd h' (by simp)
      · rcases h' with ⟨t2, ht⟩; exact absurd ht (by simp)
      · rcases h' with ⟨t2, ht⟩; exact absurd ht (by simp)
    · rw [hfund] at hm
      simp at hm
      rcases hbEv _ hm with h' | h' | h'
      · exact absurd h' (by simp)
      · rcases h' with ⟨t2, ht⟩; exact absurd ht (by simp)
      · rcases h' with ⟨t2, ht⟩; exact absurd ht (by simp)
    · rw [hfund] at hm
      simp at hm
      rcases hbEv _ hm with h' | h' | h'
      · exact absurd h' (by simp)
      · rcases h' with ⟨t2, ht⟩; exact absurd ht (by simp)
      · rcases h' with ⟨t2, ht⟩; exact absurd ht (by simp)
  · intro hmin a hm
    rcases hub : get_usdc_balance bo with ⟨bEv, balance⟩
    have hv : balance = binBalanceValue bo := by
      have h0 := get_usdc_balance_val bo
      rw [hub] at h0
      exact h0
    have hlt : ¬ balance < MIN_REQUIRED_BALANCE := by rw [hv]; linarith
    have hbuy : ∀ (s : String) (amt : ℚ) (ob : BinBuyOracle),
        Event.binRedeem a ∈ buy_crypto s amt ob → False := by
      intro s amt ob hmm
      rcases buy_crypto_mem hmm with h' | h' | h' | h' | h'
      · exact absurd h' (by simp)
      · rcases h' with ⟨q, p, ht⟩; exact absurd ht (by simp)
      · rcases h' with ⟨x, y, ht⟩; exact absurd ht (by simp)
      · rcases h' with ⟨t, ht⟩; exact absurd ht (by simp)
      · rcases h' with ⟨t, ht⟩; exact absurd ht (by simp)
    have hbal2 : Event.binRedeem a ∈ bEv → False := by
      intro hmm
      rcases get_usdc_balance_mem (o := bo) (by rw [hub]; exact hmm)
          with h' | h' | h'
      · exact absurd h' (by simp)
      · rcases h' with ⟨t, ht⟩; exact absurd ht (by simp)
      · rcases h' with ⟨t, ht⟩; exact absurd ht (by simp)
    rcases ho : bo.pnl with u | v
    · simp only [daily_dca, hub, if_neg hlt, ho] at hm
      simp at hm
      rcases hm with hm | hm | hm | hm
      · exact hbal2 hm
      · exact hbuy _ _ _ hm
      · exact hbuy _ _ _ hm
      · rcases catchEvents_mem hm with h' | h' <;> rcases h' with ⟨t, ht⟩ <;>
          exact absurd ht (by simp)
    · simp only [daily_dca, hub, if_neg hlt, ho] at hm
      simp at hm
      rcases hm with hm | hm | hm
      · exact hbal2 hm
      · exact hbuy _ _ _ hm
      · exact hbuy _ _ _ hm

/-- Run oracle for the early-exit witness: wallet already holds 20. -/
def c4o : RunOracle :=
  { c1o with initialBal := ⟨.ok (some 20)⟩ }

/-- Binance oracle with a sufficient spot balance. -/
def c4bo : BinOracle :=
  { balance := .ok (some 20), redeem := .ret true
  , buyEth := ⟨.ok (1, 1), .ok true⟩, buySol := ⟨.ok (1, 1), .ok true⟩
  , pnl := .ok () }

/-- C4 witness: the theorem applied with budget 13 against an initial
balance of 20, on both variants. -/
theorem c4_witness :
    ((13 : ℚ) ≤ balanceValue c4o.initialBal) ∧
    (∀ ot c a, Event.earnSubmit ot c a ∉ (funding_phase c1cfg 13 c4o).1) ∧
    (MIN_REQUIRED_BALANCE ≤ binBalanceValue c4bo) ∧
    (∀ a, Event.binRedeem a ∉ (daily_dca c4bo).1) :=
  ⟨by with_unfolding_all decide,
   ((c4_early_exit_no_calls c1cfg 13 c4o c4bo).1 (by with_unfolding_all decide)).1,
   by with_unfolding_all decide,
   (c4_early_exit_no_calls c1cfg 13 c4o c4bo).2 (by with_unfolding_all decide)⟩

/-! ## Claim C5: primary redemption covering the deficit short-circuits -/

/-- C5: if the balance re-read after the primary redemption attempt covers
the required budget, no staked position of any non-primary currency is ever
queried during the run. -/
theorem c5_primary_covers_no_secondary_query (cfg : Config)
    (pf : String → Option ℚ) (o : RunOracle)
    (h : requiredBudget cfg pf ≤ balanceValue o.primaryStep.reRead) :
    ∀ c, c ≠ cfg.primary → Event.queryStaked c ∉ (run_dca_bot cfg pf o).1 := by
  intro c hc hm
  rcases run_dca_bot_mem hm with h' | h' | h' | h' | ⟨bal, h'⟩
  · rcases h' with ⟨t, ht⟩; exact absurd ht (by simp)
  · rcases h' with ⟨t, ht⟩; exact absurd ht (by simp)
  · exact absurd h' (by simp)
  · rcases funding_phase_mem h' with h2 | h2 | h2 | h2 | ⟨fb, cover, hcov, hpsr, h2⟩
    · rcases h2 with ⟨t, ht⟩; exact absurd ht (by simp)
    · rcases h2 with ⟨t, ht⟩; exact absurd ht (by simp)
    · exact absurd h2 (by simp)
    · rcases primary_step_mem h2 with p | p | p | p | p | p | p | p
      · rcases p with ⟨t, ht⟩; exact absurd ht (by simp)
      · rcases p with ⟨t, ht⟩; exact absurd ht (by simp)
      · injection p with hcp
        exact hc hcp
      · rcases p with ⟨r, ht⟩; exact absurd ht (by simp)
      · exact absurd p (by simp)
      · rcases p with ⟨a, ht⟩; exact absurd ht (by simp)
      · rcases p with ⟨s, ht⟩; exact absurd ht (by simp)
      · exact absurd p (by simp)
    · obtain ⟨hpos, hneg⟩ := primary_step_result hpsr
      by_cases hinit : 0 < requiredBudget cfg pf - balanceValue o.initialBal
      · obtain ⟨-, hcov'⟩ := hpos hinit
        rw [hcov'] at hcov
        linarith
      · obtain ⟨-, hcov'⟩ := hneg hinit
        rw [hcov'] at hcov
        exact hinit hcov
  · rcases purchase_loop_mem h' with
      p | p | p | p | p | p | p | p | ⟨c2, a2, ht⟩
    · rcases p with ⟨t, ht⟩; exact absurd ht (by simp)
    · rcases p with ⟨t, ht⟩; exact absurd ht (by simp)
    · rcases p with ⟨f, t, a2, ht⟩; exact absurd ht (by simp)
    · exact absurd p (by simp)
    · rcases p with ⟨x, y, u, v, ht⟩; exact absurd ht (by simp)
    · rcases p with ⟨s, q, p2, t, ht⟩; exact absurd ht (by simp)
    · rcases p with ⟨cc, ht⟩; exact absurd ht (by simp)
    · rcases p with ⟨cc, ht⟩; exact absurd ht (by simp)
    · exact absurd ht (by simp)

/-- Run oracle for the short-circuit witness: primary redemption succeeds
and the re-read shows 20, covering the budget of 13. -/
def c5o : RunOracle :=
  { c1o with
      primaryStep :=
        { stakedFetch := .ok (some 50)
        , stake := ⟨.ok (some ()), .ok 0⟩
        , reRead := ⟨.ok (some 20)⟩ }
      , finalBal := ⟨.ok (some 20)⟩ }

/-- C5 witness: the theorem applied to the covering scenario; in
particular USDC's staked position is never queried. -/
theorem c5_witness :
    (requiredBudget c1cfg c1pf ≤ balanceValue c5o.primaryStep.reRead) ∧
    (∀ c, c ≠ c1cfg.primary →
      Event.queryStaked c ∉ (run_dca_bot c1cfg c1pf c5o).1) :=
  ⟨by with_unfolding_all decide,
   c5_primary_covers_no_secondary_query c1cfg c1pf c5o
     (by with_unfolding_all decide)⟩

/-! ## Claim C3: abort before any purchase on final insufficiency -/

/-- C3: when the run completes normally, the allocation is nonempty, and
the final primary-balance read is still below the required budget, the run
aborts before any purchase: no trade record is ever appended, every
conversion request of the whole run converts a non-primary coin INTO the
primary coin (so no conversion toward a target asset is requested), and
the insufficient-funds notification is sent. -/
theorem c3_abort_before_purchase (cfg : Config) (pf : String → Option ℚ)
    (o : RunOracle)
    (hne : (get_crypto_allocation pf cfg.allocString).2 ≠ [])
    (hok : (run_dca_bot cfg pf o).2 = .ok ())
    (hlow : balanceValue o.finalBal < requiredBudget cfg pf) :
    (∀ s q p t, Event.tradeLog s q p t ∉ (run_dca_bot cfg pf o).1) ∧
    (∀ f t a, Event.quoteRequest f t a ∈ (run_dca_bot cfg pf o).1 →
      t = cfg.primary ∧ f ≠ cfg.primary) ∧
    Event.telegram .insufficientFunds ∈ (run_dca_bot cfg pf o).1 := by
  rcases hal : get_crypto_allocation pf cfg.allocString with ⟨aEv, alloc⟩
  have hne' : alloc ≠ [] := by
    intro hifempty
    apply hne
    rw [hal, hifempty]
  have haEv : ∀ x ∈ aEv, (∃ t, x = Event.logMsg t) ∨ (∃ t, x = Event.telegram t) := by
    intro x hx
    exact get_crypto_allocation_mem (by rw [hal]; exact hx)
  have hbudget : requiredBudget cfg pf = allocTotal alloc * cfg.daily := by
    rw [requiredBudget, hal]
  rcases hfp : funding_phase cfg (allocTotal alloc * cfg.daily) o
    with ⟨fEv, u | fb⟩
  · exact absurd (by simp [run_dca_bot, hal, hne', hfp] at hok) (fun hifx => hifx)
  · rcases hb4 : get_coin_balance cfg.primary o.finalBal with ⟨b4Ev, b4⟩
    have hb4v : b4 = balanceValue o.finalBal := by
      have h0 := get_coin_balance_val cfg.primary o.finalBal
      rw [hb4] at h0
      exact h0
    have habort : b4 < allocTotal alloc * cfg.daily := by
      rw [hb4v, ← hbudget]
      exact hlow
    have hb4Ev : ∀ x ∈ b4Ev, x = Event.queryBalance cfg.primary ∨
        (∃ t, x = Event.logMsg t) ∨ (∃ t, x = Event.telegram t) := by
      intro x hx
      exact get_coin_balance_mem (by rw [hb4]; exact hx)
    have hfEv : ∀ x ∈ fEv,
        x ∈ (funding_phase cfg (allocTotal alloc * cfg.daily) o).1 := by
      intro x hx
      rw [hfp]
      exact hx
    refine ⟨fun s q p t hm => ?_, fun f t a hm => ?_, ?_⟩
    · simp only [run_dca_bot, hal, if_neg hne', hfp, hb4, if_pos habort] at hm
      simp at hm
      rcases hm with hm | hm | hm
      · rcases haEv _ hm with h' | h'
        · rcases h' with ⟨t2, ht⟩; exact absurd ht (by simp)
        · rcases h' with ⟨t2, ht⟩; exact absurd ht (by simp)
      · rcases funding_phase_mem (hfEv _ hm) with
          h2 | h2 | h2 | h2 | ⟨fb2, cover, hcov, hpsr, h2⟩
        · rcases h2 with ⟨t2, ht⟩; exact absurd ht (by simp)
        · rcases h2 with ⟨t2, ht⟩; exact absurd ht (by simp)
        · exact absurd h2 (by simp)
        · rcases primary_step_mem h2 with p2 | p2 | p2 | p2 | p2 | p2 | p2 | p2
          · rcases p2 with ⟨t2, ht⟩; exact absurd ht (by simp)
          · rcases p2 with ⟨t2, ht⟩; exact absurd ht (by simp)
          · exact absurd p2 (by simp)
          · rcases p2 with ⟨r, ht⟩; exact absurd ht (by simp)
          · exact absurd p2 (by simp)
          · rcases p2 with ⟨a2, ht⟩; exact absurd ht (by simp)
          · rcases p2 with ⟨s2, ht⟩; exact absurd ht (by simp)
          · exact absurd p2 (by simp)
        · rcases secondary_loop_mem hcov h2 with
            h3 | h3 | h3 | h3 | h3 | h3 | ⟨cc, hcc, h3⟩ |
            ⟨cc, am, hcc, heq, hrest⟩
          · rcases h3 with ⟨t2, ht⟩; exact absurd ht (by simp)
          · rcases h3 with ⟨t2, ht⟩; exact absurd ht (by simp)
          · exact absurd h3 (by simp)
          · rcases h3 with ⟨x, y, u2, v, ht⟩; exact absurd ht (by simp)
          · rcases h3 with ⟨s2, ht⟩; exact absurd ht (by simp)
          · rcases h3 with ⟨s2, ht⟩; exact absurd ht (by simp)
          · rcases h3 with h3 | h3 | h3 | h3
            · exact absurd h3 (by simp)
            · rcases h3 with ⟨r, ht⟩; exact absurd ht (by simp)
            · exact absurd h3 (by simp)
            · rcases h3 with ⟨am2, ht⟩; exact absurd ht (by simp)
          · exact absurd heq (by simp)
      · rcases hb4Ev _ hm with h' | h' | h'
        · exact absurd h' (by simp)
        · rcases h' with ⟨t2, ht⟩; exact absurd ht (by simp)
        · rcases h' with ⟨t2, ht⟩; exact absurd ht (by simp)
    · simp only [run_dca_bot, hal, if_neg hne', hfp, hb4, if_pos habort] at hm
      simp at hm
      rcases hm with hm | hm | hm
      · rcases haEv _ hm with h' | h'
        · rcases h' with ⟨t2, ht⟩; exact absurd ht (by simp)
        · rcases h' with ⟨t2, ht⟩; exact absurd ht (by simp)
      · rcases funding_phase_mem (hfEv _ hm) with
          h2 | h2 | h2 | h2 | ⟨fb2, cover, hcov, hpsr, h2⟩
        · rcases h2 with ⟨t2, ht⟩; exact absurd ht (by simp)
        · rcases h2 with ⟨t2, ht⟩; exact absurd ht (by simp)
        · exact absurd h2 (by simp)
        · rcases primary_step_mem h2 with p2 | p2 | p2 | p2 | p2 | p2 | p2 | p2
          · rcases p2 with ⟨t2, ht⟩; exact absurd ht (by simp)
          · rcases p2 with ⟨t2, ht⟩; exact absurd ht (by simp)
          · exact absurd p2 (by simp)
          · rcases p2 with ⟨r, ht⟩; exact absurd ht (by simp)
          · exact absurd p2 (by simp)
          · rcases p2 with ⟨a2, ht⟩; exact absurd ht (by simp)
          · rcases p2 with ⟨s2, ht⟩; exact absurd ht (by simp)
          · exact absurd p2 (by simp)
        · rcases secondary_loop_mem hcov h2 with
            h3 | h3 | h3 | h3 | h3 | h3 | ⟨cc, hcc, h3⟩ |
            ⟨cc, am, hcc, heq, hrest⟩
          · rcases h3 with ⟨t2, ht⟩; exact absurd ht (by simp)
          · rcases h3 with ⟨t2, ht⟩; exact absurd ht (by simp)
          · exact absurd h3 (by simp)
          · rcases h3 with ⟨x, y, u2, v, ht⟩; exact absurd ht (by simp)
          · rcases h3 with ⟨s2, ht⟩; exact absurd ht (by simp)
          · rcases h3 with ⟨s2, ht⟩; exact absurd ht (by simp)
          · rcases h3 with h3 | h3 | h3 | h3
            · exact absurd h3 (by simp)
            · rcases h3 with ⟨r, ht⟩; exact absurd ht (by simp)
            · exact absurd h3 (by simp)
            · rcases h3 with ⟨am2, ht⟩
              injection ht with hf ht2 ha2
              subst hf
              subst ht2
              exact ⟨rfl, hcc⟩
          · exact absurd heq (by simp)
      · rcases hb4Ev _ hm with h' | h' | h'
        · exact absurd h' (by simp)
        · rcases h' with ⟨t2, ht⟩; exact absurd ht (by simp)
        · rcases h' with ⟨t2, ht⟩; exact absurd ht (by simp)
    · simp [run_dca_bot, hal, hne', hfp, hb4, habort]

/-- C3 witness: the abort scenario of `c1o` (final balance 0 against a
budget of 13): the run completes normally, appends no trade record, and
sends the insufficient-funds notification. -/
theorem c3_witness :
    ((get_crypto_allocation c1pf c1cfg.allocString).2 ≠ []) ∧
    ((run_dca_bot c1cfg c1pf c1o).2 = .ok ()) ∧
    (balanceValue c1o.finalBal < requiredBudget c1cfg c1pf) ∧
    Event.telegram .insufficientFunds ∈ (run_dca_bot c1cfg c1pf c1o).1 :=
  ⟨by with_unfolding_all decide, by with_unfolding_all decide,
   by with_unfolding_all decide,
   (c3_abort_before_purchase c1cfg c1pf c1o (by with_unfolding_all decide)
     (by with_unfolding_all decide) (by with_unfolding_all decide)).2.2⟩

/-! ## Claim C9: partial allocation parsing -/

/-- The parsing loop accumulates exactly the pieces before the first
raising piece, and reports whether any piece raised. -/
theorem allocParseLoop_eq (pf : String → Option ℚ) :
    ∀ (ps : List (List Char)) (acc : List (String × ℚ)),
      allocParseLoop pf ps acc =
        ((ps.takeWhile fun p => !(pieceRaises pf p)).foldl (allocFold pf) acc,
         ps.any (pieceRaises pf)) := by
  intro ps
  induction ps with
  | nil => intro acc; simp [allocParseLoop]
  | cons p rest ih =>
      intro acc
      cases hB : p.contains ':' with
      | false =>
          have hB' : ¬ (':' ∈ p) := by simpa using hB
          have hpr : pieceRaises pf p = false := by
            simp [pieceRaises, hB']
          simp only [allocParseLoop, hB, Bool.false_eq_true, if_false,
            List.takeWhile_cons, List.any_cons, hpr, Bool.not_false, if_true,
            Bool.false_or, List.foldl_cons]
          rw [ih]
          congr 1
          simp [allocFold, hB']
      | true =>
          have hB' : (':' ∈ p) := by simpa using hB
          rcases hsp : pySplit ':' (pyStrip p) with _ | ⟨sy, tl⟩
          · have hpr : pieceRaises pf p = true := by
              simp [pieceRaises, hB', hsp]
            simp [allocParseLoop, hB, hB', hsp, hpr]
          · rcases tl with _ | ⟨fs, tl2⟩
            · have hpr : pieceRaises pf p = true := by
                simp [pieceRaises, hB', hsp]
              simp [allocParseLoop, hB, hB', hsp, hpr]
            · rcases tl2 with _ | ⟨x, tl3⟩
              · rcases hpf : pf (String.mk fs) with _ | f
                · have hpr : pieceRaises pf p = true := by
                    simp [pieceRaises, hB', hsp, hpf]
                  simp [allocParseLoop, hB, hB', hsp, hpf, hpr]
                · have hpr : pieceRaises pf p = false := by
                    simp [pieceRaises, hB', hsp, hpf]
                  simp only [allocParseLoop, hB, if_true, hsp, hpf,
                    List.takeWhile_cons, List.any_cons, hpr, Bool.not_false,
                    Bool.false_or, List.foldl_cons]
                  rw [ih]
                  congr 1
                  simp [allocFold, hB', hsp, hpf]
              · have hpr : pieceRaises pf p = true := by
                  simp [pieceRaises, hB', hsp]
                simp [allocParseLoop, hB, hB', hsp, hpr]

/-- The initial balance query of the funding phase always happens. -/
theorem funding_phase_queryBalance (cfg : Config) (needed : ℚ) (o : RunOracle) :
    Event.queryBalance cfg.primary ∈ (funding_phase cfg needed o).1 := by
  rcases hgb : get_coin_balance cfg.primary o.initialBal with ⟨bEv, bal⟩
  have hhead : Event.queryBalance cfg.primary ∈ bEv := by
    have h0 : bEv = (get_coin_balance cfg.primary o.initialBal).1 := by rw [hgb]
    rw [h0]
    unfold get_coin_balance
    rcases o.initialBal.resp with u | v
    · simp
    · cases v <;> simp
  rcases hps : primary_step cfg needed bal o.primaryStep
    with ⟨pEv, u | ⟨fb, cover⟩⟩
  · simp [funding_phase, hgb, hps, hhead]
  · by_cases hcov : 0 < cover
    · rcases hsl : secondary_loop cfg needed o.secondary fb cover cfg.stables
        with ⟨sEv, sr⟩
      cases sr with
      | error u => simp [funding_phase, hgb, hps, hcov, hsl, hhead]
      | ok pr =>
          obtain ⟨fb2, cov2⟩ := pr
          simp [funding_phase, hgb, hps, hcov, hsl, hhead]
    · simp [funding_phase, hgb, hps, hcov, hhead]

/-- C9: (1) when the allocation string is nonempty, the parser returns the
fold of exactly the comma-pieces that precede the first failing piece
(the dict mutated so far when the loop raises); (2) whenever that partial
mapping is nonempty the run proceeds to the first exchange call (the
initial balance query); (3) when zero pairs parse, the run aborts before
any exchange call. -/
theorem c9_partial_allocation :
    (∀ (pf : String → Option ℚ) (s : String), s ≠ "" →
      (get_crypto_allocation pf s).2 =
        allocOfPieces pf
          ((pySplit ',' s.toList).takeWhile fun p => !(pieceRaises pf p))) ∧
    (∀ (cfg : Config) (pf : String → Option ℚ) (o : RunOracle),
      (get_crypto_allocation pf cfg.allocString).2 ≠ [] →
      Event.queryBalance cfg.primary ∈ (run_dca_bot cfg pf o).1) ∧
    (∀ (cfg : Config) (pf : String → Option ℚ) (o : RunOracle),
      (get_crypto_allocation pf cfg.allocString).2 = [] →
      (∀ c, Event.queryBalance c ∉ (run_dca_bot cfg pf o).1) ∧
      (∀ c, Event.queryStaked c ∉ (run_dca_bot cfg pf o).1) ∧
      (∀ c, Event.queryEarnProduct c ∉ (run_dca_bot cfg pf o).1) ∧
      (∀ ot c a, Event.earnSubmit ot c a ∉ (run_dca_bot cfg pf o).1) ∧
      (∀ f t a, Event.quoteRequest f t a ∉ (run_dca_bot cfg pf o).1)) := by
  refine ⟨fun pf s hs => ?_, fun cfg pf o hne => ?_, fun cfg pf o hempty => ?_⟩
  · unfold get_crypto_allocation
    rw [if_neg hs]
    rw [allocParseLoop_eq]
    simp only [allocOfPieces]
    split
    · rename_i hacc
      simp only
      exact hacc.symm
    · rfl
  · rcases hal : get_crypto_allocation pf cfg.allocString with ⟨aEv, alloc⟩
    have hne' : alloc ≠ [] := by
      intro hx
      apply hne
      rw [hal, hx]
    rcases hfp : funding_phase cfg (allocTotal alloc * cfg.daily) o
      with ⟨fEv, fr⟩
    have hqb : Event.queryBalance cfg.primary ∈ fEv := by
      have h0 := funding_phase_queryBalance cfg (allocTotal alloc * cfg.daily) o
      rw [hfp] at h0
      exact h0
    cases fr with
    | error u => simp [run_dca_bot, hal, hne', hfp, hqb]
    | ok fb =>
        rcases hb4 : get_coin_balance cfg.primary o.finalBal with ⟨b4Ev, b4⟩
        by_cases habort : b4 < allocTotal alloc * cfg.daily
        · simp [run_dca_bot, hal, hne', hfp, hb4, habort, hqb]
        · rcases hpl : purchase_loop cfg o.purchase b4 alloc with ⟨uEv, ur⟩
          cases ur with
          | error u => simp [run_dca_bot, hal, hne', hfp, hb4, habort, hpl, hqb]
          | ok v => simp [run_dca_bot, hal, hne', hfp, hb4, habort, hpl, hqb]
  · rcases hal : get_crypto_allocation pf cfg.allocString with ⟨aEv, alloc⟩
    have hempty' : alloc = [] := by
      have h0 : (aEv, alloc).2 = [] := by rw [← hal]; exact hempty
      exact h0
    have haEv : ∀ x ∈ aEv,
        (∃ t, x = Event.logMsg t) ∨ (∃ t, x = Event.telegram t) := by
      intro x hx
      exact get_crypto_allocation_mem (by rw [hal]; exact hx)
    have htr : (run_dca_bot cfg pf o).1 =
        [Event.logMsg .botRunning, Event.telegram .botRunning] ++ aEv := by
      simp [run_dca_bot, hal, hempty']
    refine ⟨fun c hm => ?_, fun c hm => ?_, fun c hm => ?_,
      fun ot c a hm => ?_, fun f t a hm => ?_⟩ <;>
      rw [htr] at hm <;> simp at hm <;>
      rcases haEv _ hm with ⟨t2, ht⟩ | ⟨t2, ht⟩ <;> exact absurd ht (by simp)

/-- Allocation string whose middle pair fails to parse. -/
def c9cfg : Config :=
  { daily := 13, stables := ["USDT", "USDC"]
  , allocString := "ETH:0.6,SOL:xx,BTC:1.0" }

/-- `float()` oracle for the C9 scenario; `xx` raises. -/
def c9pf : String → Option ℚ := fun s =>
  if s = "0.6" then some (6 / 10) else if s = "1.0" then some 1 else none

/-- C9 witness: the theorem applied to `ETH:0.6,SOL:xx,BTC:1.0`: parsing
stops at `SOL:xx`, the partial plan `[ETH ↦ 0.6]` is returned, and the run
proceeds to the initial balance query. -/
theorem c9_witness :
    (c9cfg.allocString ≠ "") ∧
    ((get_crypto_allocation c9pf c9cfg.allocString).2 =
      allocOfPieces c9pf
        ((pySplit ',' c9cfg.allocString.toList).takeWhile
          fun p => !(pieceRaises c9pf p))) ∧
    ((get_crypto_allocation c9pf c9cfg.allocString).2 = [("ETH", 6 / 10)]) ∧
    ((get_crypto_allocation c9pf c9cfg.allocString).2 ≠ []) ∧
    Event.queryBalance c9cfg.primary ∈ (run_dca_bot c9cfg c9pf c1o).1 :=
  ⟨by decide,
   c9_partial_allocation.1 c9pf c9cfg.allocString (by decide),
   by with_unfolding_all decide,
   by with_unfolding_all decide,
   c9_partial_allocation.2.1 c9cfg c9pf c1o (by with_unfolding_all decide)⟩

/-! ## Claim C10: binance low-balance path -/

theorem get_usdc_balance_count (o : BinOracle) :
    (get_usdc_balance o).1.count (Event.queryBalance "USDC") = 1 := by
  unfold get_usdc_balance
  rcases o.balance with u | v
  · simp [catchEvents, List.count_cons, List.count_nil]
  · cases v <;> simp [List.count_cons, List.count_nil]

theorem get_usdc_balance_telegram {o : BinOracle} {t : MsgTag}
    (h : Event.telegram t ∈ (get_usdc_balance o).1) :
    t = MsgTag.binBalanceError := by
  unfold get_usdc_balance at h
  rcases ho : o.balance with u | v
  · rw [ho] at h
    simp [catchEvents] at h
    exact h
  · rw [ho] at h
    cases v <;> simp at h

/-- Binance oracle for the C10 counterexample: balance 5 (below the
required 13) and a redemption call that raises `ClientError`, after which
the unbound `response` read raises `NameError`. -/
def c10o : BinOracle :=
  { balance := .ok (some 5), redeem := .raiseClientError
  , buyEth := ⟨.error (), .error ()⟩, buySol := ⟨.error (), .error ()⟩
  , pnl := .error () }

/-- C10, counterexample: on the low-balance path the run does NOT always
wait after submitting the redemption -- when the redemption call raises, the
escaping exception skips the wait (and the skip-notification) entirely. -/
theorem c10_counterexample :
    binBalanceValue c10o < MIN_REQUIRED_BALANCE ∧
    Event.binRedeem DAILY_USDC ∈ (daily_dca c10o).1 ∧
    Event.sleep 1 ∉ (daily_dca c10o).1 ∧
    (daily_dca c10o).2 = .error () := by
  refine ⟨?_, ?_, ?_, ?_⟩ <;> with_unfolding_all decide

/-- C10 (amended): whenever the initial binance spot balance is below the
required amount, the run submits a redemption (always for `DAILY_USDC`),
executes no purchase, and never re-reads the balance (exactly one balance
query in the whole trace); when the redemption call returns a success
response, the run additionally waits and returns normally, but when it
returns a failure response the read of `response.text` raises an uncaught
`AttributeError` before the print, so the run escapes without the wait and
without ever sending the unstaking-failed notification.  Purchases occur
only when the initial balance was already sufficient. -/
theorem c10_binance_redeem_amended (o : BinOracle) :
    (binBalanceValue o < MIN_REQUIRED_BALANCE →
      Event.binRedeem DAILY_USDC ∈ (daily_dca o).1 ∧
      (∀ s a, Event.buyOrder s a ∉ (daily_dca o).1) ∧
      ((daily_dca o).1.count (Event.queryBalance "USDC") = 1) ∧
      (o.redeem = .ret true →
        Event.sleep 1 ∈ (daily_dca o).1 ∧ (daily_dca o).2 = .ok ()) ∧
      (o.redeem = .ret false →
        Event.sleep 1 ∉ (daily_dca o).1 ∧
        Event.telegram .binUnstakeFailed ∉ (daily_dca o).1 ∧
        (daily_dca o).2 = .error ())) ∧
    (∀ s a, Event.buyOrder s a ∈ (daily_dca o).1 →
      MIN_REQUIRED_BALANCE ≤ binBalanceValue o) := by
  rcases hub : get_usdc_balance o with ⟨bEv, balance⟩
  have hv : balance = binBalanceValue o := by
    have h0 := get_usdc_balance_val o
    rw [hub] at h0
    exact h0
  have hbcount : bEv.count (Event.queryBalance "USDC") = 1 := by
    have h0 := get_usdc_balance_count o
    rw [hub] at h0
    exact h0
  have hbEv : ∀ x ∈ bEv, x = Event.queryBalance "USDC" ∨
      (∃ t, x = Event.logMsg t) ∨ (∃ t, x = Event.telegram t) := by
    intro x hx
    exact get_usdc_balance_mem (by rw [hub]; exact hx)
  constructor
  · intro hlow
    have hlt : balance < MIN_REQUIRED_BALANCE := by rw [hv]; exact hlow
    rcases ho : o.redeem with _ | _ | s0
    · refine ⟨?_, fun s a hm => ?_, ?_, fun hs => absurd hs (by simp),
        fun hs => absurd hs (by simp)⟩
      · simp [daily_dca, hub, hlt, redeem_usdc_from_flexible, ho, catchEvents]
      · simp only [daily_dca, hub, if_pos hlt, redeem_usdc_from_flexible, ho] at hm
        simp [catchEvents] at hm
        rcases hbEv _ hm with h' | ⟨t, ht⟩ | ⟨t, ht⟩
        · exact absurd h' (by simp)
        · exact absurd ht (by simp)
        · exact absurd ht (by simp)
      · simp only [daily_dca, hub, if_pos hlt, redeem_usdc_from_flexible, ho]
        simp [List.count_append, List.count_cons, hbcount, catchEvents]
    · refine ⟨?_, fun s a hm => ?_, ?_, fun hs => absurd hs (by simp),
        fun hs => absurd hs (by simp)⟩
      · simp [daily_dca, hub, hlt, redeem_usdc_from_flexible, ho]
      · simp only [daily_dca, hub, if_pos hlt, redeem_usdc_from_flexible, ho] at hm
        simp at hm
        rcases hbEv _ hm with h' | ⟨t, ht⟩ | ⟨t, ht⟩
        · exact absurd h' (by simp)
        · exact absurd ht (by simp)
        · exact absurd ht (by simp)
      · simp only [daily_dca, hub, if_pos hlt, redeem_usdc_from_flexible, ho]
        simp [List.count_append, List.count_cons, hbcount]
    · cases s0
      · refine ⟨?_, fun s a hm => ?_, ?_, fun hs => absurd hs (by simp),
          fun _ => ⟨?_, ?_, ?_⟩⟩
        · simp [daily_dca, hub, hlt, redeem_usdc_from_flexible, ho]
        · simp only [daily_dca, hub, if_pos hlt, redeem_usdc_from_flexible,
            ho] at hm
          simp at hm
          rcases hbEv _ hm with h' | ⟨t, ht⟩ | ⟨t, ht⟩
          · exact absurd h' (by simp)
          · exact absurd ht (by simp)
          · exact absurd ht (by simp)
        · simp only [daily_dca, hub, if_pos hlt, redeem_usdc_from_flexible, ho]
          simp [List.count_append, List.count_cons, hbcount]
        · intro hm
          simp only [daily_dca, hub, if_pos hlt, redeem_usdc_from_flexible,
            ho] at hm
          simp at hm
          rcases hbEv _ hm with h' | ⟨t, ht⟩ | ⟨t, ht⟩
          · exact absurd h' (by simp)
          · exact absurd ht (by simp)
          · exact absurd ht (by simp)
        · intro hm
          simp only [daily_dca, hub, if_pos hlt, redeem_usdc_from_flexible,
            ho] at hm
          simp at hm
          have ht := get_usdc_balance_telegram (o := o) (by rw [hub]; exact hm)
          exact absurd ht (by simp)
        · simp [daily_dca, hub, hlt, redeem_usdc_from_flexible, ho]
      · refine ⟨?_, fun s a hm => ?_, ?_, fun _ => ⟨?_, ?_⟩,
          fun hs => absurd hs (by simp)⟩
        · simp [daily_dca, hub, hlt, redeem_usdc_from_flexible, ho]
        · simp only [daily_dca, hub, if_pos hlt, redeem_usdc_from_flexible,
            ho] at hm
          simp at hm
          rcases hbEv _ hm with h' | ⟨t, ht⟩ | ⟨t, ht⟩
          · exact absurd h' (by simp)
          · exact absurd ht (by simp)
          · exact absurd ht (by simp)
        · simp only [daily_dca, hub, if_pos hlt, redeem_usdc_from_flexible, ho]
          simp [List.count_append, List.count_cons, hbcount,
            List.count_replicate]
        · simp [daily_dca, hub, hlt, redeem_usdc_from_flexible, ho,
            List.mem_replicate]
        · simp [daily_dca, hub, hlt, redeem_usdc_from_flexible, ho]
  · intro s a hm
    by_cases hlt : balance < MIN_REQUIRED_BALANCE
    · exfalso
      rcases ho : o.redeem with _ | _ | s0
      · simp only [daily_dca, hub, if_pos hlt, redeem_usdc_from_flexible, ho] at hm
        simp [catchEvents] at hm
        rcases hbEv _ hm with h' | ⟨t, ht⟩ | ⟨t, ht⟩
        · exact absurd h' (by simp)
        · exact absurd ht (by simp)
        · exact absurd ht (by simp)
      · simp only [daily_dca, hub, if_pos hlt, redeem_usdc_from_flexible, ho] at hm
        simp at hm
        rcases hbEv _ hm with h' | ⟨t, ht⟩ | ⟨t, ht⟩
        · exact absurd h' (by simp)
        · exact absurd ht (by simp)
        · exact absurd ht (by simp)
      · cases s0 <;>
          · simp only [daily_dca, hub, if_pos hlt, redeem_usdc_from_flexible,
              ho] at hm
            simp at hm
            rcases hbEv _ hm with h' | ⟨t, ht⟩ | ⟨t, ht⟩
            · exact absurd h' (by simp)
            · exact absurd ht (by simp)
            · exact absurd ht (by simp)
    · rw [hv] at hlt
      linarith

/-- Binance oracle whose redemption call returns a success response. -/
def c10o2 : BinOracle :=
  { balance := .ok (some 5), redeem := .ret true
  , buyEth := ⟨.ok (1, 1), .ok true⟩, buySol := ⟨.ok (1, 1), .ok true⟩
  , pnl := .ok () }

/-- Binance oracle whose redemption call returns a failure response
(so the read of `response.text` raises `AttributeError`). -/
def c10o3 : BinOracle :=
  { balance := .ok (some 5), redeem := .ret false
  , buyEth := ⟨.ok (1, 1), .ok true⟩, buySol := ⟨.ok (1, 1), .ok true⟩
  , pnl := .ok () }

/-- C10 witness: the amended theorem applied to two low-balance scenarios.
When the redemption call returns a success response, the redemption is
submitted, no purchase happens, the balance is read exactly once, and the
run waits and returns normally; when it returns a failure response, the
run escapes without the wait and without the unstaking-failed
notification. -/
theorem c10_witness :
    (binBalanceValue c10o2 < MIN_REQUIRED_BALANCE) ∧
    Event.binRedeem DAILY_USDC ∈ (daily_dca c10o2).1 ∧
    (∀ s a, Event.buyOrder s a ∉ (daily_dca c10o2).1) ∧
    ((daily_dca c10o2).1.count (Event.queryBalance "USDC") = 1) ∧
    (Event.sleep 1 ∈ (daily_dca c10o2).1 ∧ (daily_dca c10o2).2 = .ok ()) ∧
    (Event.sleep 1 ∉ (daily_dca c10o3).1 ∧
     Event.telegram .binUnstakeFailed ∉ (daily_dca c10o3).1 ∧
     (daily_dca c10o3).2 = .error ()) := by
  have h := (c10_binance_redeem_amended c10o2).1 (by with_unfolding_all decide)
  have h3 := (c10_binance_redeem_amended c10o3).1 (by with_unfolding_all decide)
  exact ⟨by with_unfolding_all decide, h.1, h.2.1, h.2.2.1, h.2.2.2.1 rfl,
    h3.2.2.2.2 rfl⟩
